import Mathlib

/-!
Verification development for the `mtg-trades-agent` service.

The development shallowly embeds the JavaScript sources:

* `src/executors.js` — the tool executors (`scryfall_search`, `tracker_dynamic`),
  the Scryfall query construction, and the credential / bearer-token helpers;
* `src/tools.js` — the static tool descriptors and the backend-schema
  translation `fetchTrackerFunctions`;
* `src/gptAgent.js` — the orchestration loop `sendMessage`: executor
  resolution, the history-splice (superseding) passes, the per-batch tool
  execution, and the disambiguation early-exit.

JavaScript values are modelled by an inductive `Json` type; `undefined` is
modelled by `Option` (a missing field / `undefined` is `none`).  Outcomes of
`await`ed external calls (fetches, AWS secrets, the Swagger client) are
supplied by environment records; a rejected promise / thrown exception is an
`Except.error`.  Code paths with no surrounding `try` propagate the error;
paths inside `try { … } catch` convert it, exactly as the source does.
-/

/-- JavaScript/JSON values.  `undefined` is represented by `Option.none` at
use sites, never by a `Json` constructor. -/
inductive Json where
  | null : Json
  | bool (b : Bool) : Json
  | num (n : Int) : Json
  | str (s : String) : Json
  | arr (xs : List Json) : Json
  | obj (fields : List (String × Json)) : Json

/-- `s.toUpperCase()` over the character data. -/
def toUpperJs (s : String) : String :=
  String.mk (s.data.map Char.toUpper)

/-- JavaScript truthiness of a defined value. -/
def truthy : Json → Bool
  | .null => false
  | .bool b => b
  | .num n => n != 0
  | .str s => s != ""
  | .arr _ => true
  | .obj _ => true

/-- Truthiness of a possibly-`undefined` value. -/
def truthyOpt : Option Json → Bool
  | some v => truthy v
  | none => false

mutual
/-- JavaScript string conversion (template literals, `String(v)`). -/
def jsToString : Json → String
  | .null => "null"
  | .bool b => if b then "true" else "false"
  | .num n => toString n
  | .str s => s
  | .arr xs => String.intercalate "," (jsToStringList xs)
  | .obj _ => "[object Object]"
def jsToStringList : List Json → List String
  | [] => []
  | x :: xs => jsToString x :: jsToStringList xs
end

/-- `Array.prototype.join` converts `null`/`undefined` elements to `""`. -/
def jsJoinElem : Json → String
  | .null => ""
  | v => jsToString v

/-- Minimal JSON string escaping (quotes and backslashes), enough to model
`JSON.stringify` on the values this service produces (written over the
character data so that it evaluates inside the kernel). -/
def escapeJson (s : String) : String :=
  String.mk (s.data.foldl (fun acc c =>
    if c == '"' then acc ++ ['\\', '"']
    else if c == '\\' then acc ++ ['\\', '\\']
    else acc ++ [c]) [])

mutual
/-- `JSON.stringify`.  Fields built from an `undefined` value are never
materialised in this model (see `objAssignOpt`), matching the fact that
`JSON.stringify` drops `undefined`-valued properties. -/
def Json.stringify : Json → String
  | .null => "null"
  | .bool b => if b then "true" else "false"
  | .num n => toString n
  | .str s => "\"" ++ escapeJson s ++ "\""
  | .arr xs => "[" ++ String.intercalate "," (Json.stringifyList xs) ++ "]"
  | .obj fs => "\x7b" ++ String.intercalate "," (Json.stringifyFields fs) ++ "\x7d"
def Json.stringifyList : List Json → List String
  | [] => []
  | x :: xs => Json.stringify x :: Json.stringifyList xs
def Json.stringifyFields : List (String × Json) → List String
  | [] => []
  | f :: fs => ("\"" ++ escapeJson f.1 ++ "\":" ++ Json.stringify f.2) :: Json.stringifyFields fs
end

/-- Property read `v[k]` (JavaScript member access).  Reading a property of
`null` throws a `TypeError`; reading any property of a non-object yields
`undefined`.  (Synthetic properties such as `length` are handled separately
where the source uses them.) -/
def jsGetProp (v : Json) (k : String) : Except String (Option Json) :=
  match v with
  | .null => .error ("TypeError: Cannot read properties of null (reading '" ++ k ++ "')")
  | .obj fs => .ok ((fs.find? (fun f => f.1 == k)).map (·.2))
  | _ => .ok none

/-- JavaScript property assignment `o[k] = v` on a plain object: overwrite in
place if the key exists, else append. -/
def objAssign (fs : List (String × Json)) (k : String) (v : Json) : List (String × Json) :=
  if fs.any (fun f => f.1 == k) then fs.map (fun f => if f.1 == k then (k, v) else f)
  else fs ++ [(k, v)]

/-- Assignment of a possibly-`undefined` value.  Assigning `undefined` makes
the property invisible to `JSON.stringify`, so the model drops the key. -/
def objAssignOpt (fs : List (String × Json)) (k : String) (v : Option Json) :
    List (String × Json) :=
  match v with
  | some x => objAssign fs k x
  | none => fs.filter (fun f => f.1 != k)

/-- `v.length` where the source reads it (strings and arrays); `undefined`
otherwise. -/
def jsLength : Json → Option Nat
  | .str s => some s.length
  | .arr xs => some xs.length
  | _ => none

/-- `s.startsWith(p)`, modelled over the character data (same semantics,
kernel-computable). -/
def jsStartsWith (s p : String) : Bool :=
  p.data.isPrefixOf s.data

/-- Outcome of one executor call as seen by the caller of the dispatcher: a
resolved JSON value, or a raised exception / rejected promise that propagates
past the executor. -/
inductive ExecOutcome where
  | ok (v : Json)
  | exn (e : String)

/-! ## `executors.js` — Scryfall search -/

/-- Destructuring `{ k } = args` in a function head: throws on `null`,
yields `undefined` on non-objects. -/
def destructureProp (args : Json) (k : String) : Except String (Option Json) :=
  match args with
  | .null => .error ("TypeError: Cannot destructure property '" ++ k ++ "' of null")
  | .obj fs => .ok ((fs.find? (fun f => f.1 == k)).map (·.2))
  | _ => .ok none

/-- One character of the JavaScript `\s` class (the code points the service
ever sees). -/
def jsWhitespace (c : Char) : Bool :=
  c == ' ' || c == '\t' || c == '\n' || c == '\r' || c == '\x0b' || c == '\x0c'

/-- Character-level splitter behind `splitWsJs`. -/
def splitWsChars : List Char → List Char → List String
  | [], acc => [String.mk acc.reverse]
  | c :: cs, acc =>
      if jsWhitespace c then String.mk acc.reverse :: splitWsChars cs []
      else splitWsChars cs (c :: acc)

/-- `s.split(/\s+/)` as used by `scryfallSearch`: this single-character split
produces extra empty fragments for whitespace runs, and every use filters the
empty fragments out with `if (word)`, so the two are equivalent there. -/
def splitWsJs (s : String) : List String :=
  splitWsChars s.data []

/-- `v.split(/\s+/)` — a `TypeError` on non-strings. -/
def jsSplitWs (v : Json) : Except String (List String) :=
  match v with
  | .str s => .ok (splitWsJs s)
  | _ => .error "TypeError: split is not a function"

/-- The `query` array built by `scryfallSearch` (executors.js lines 118–134):
each supplied (truthy) filter pushes its clause(s); `game:paper` and
`unique:prints` are always pushed last. -/
def scryfallQuery (args : Json) : Except String (List String) := do
  let nameV ← destructureProp args "name"
  let oracleV ← destructureProp args "oracle_text"
  let typeV ← destructureProp args "type"
  let reservedV ← destructureProp args "reserved"
  let colorsV ← destructureProp args "colors"
  let setV ← destructureProp args "set"
  let q : List String := []
  let q := if truthyOpt nameV then
      q ++ ["name:\"" ++ jsToString (nameV.getD .null) ++ "\""] else q
  let q ← match oracleV with
    | some v =>
        if truthy v then do
          let ws ← jsSplitWs v
          pure (q ++ (ws.filter (fun w => w != "")).map (fun w => "o:\"" ++ w ++ "\""))
        else pure q
    | none => pure q
  let q ← match typeV with
    | some v =>
        if truthy v then do
          let ws ← jsSplitWs v
          pure (q ++ (ws.filter (fun w => w != "")).map (fun w => "t:\"" ++ w ++ "\""))
        else pure q
    | none => pure q
  let q := if truthyOpt reservedV then q ++ ["is:reserved"] else q
  let q ← match colorsV with
    | some v =>
        if truthy v && (match jsLength v with | some n => decide (0 < n) | none => false) then
          match v with
          | .arr xs => pure (q ++ ["c:\"" ++ String.join (xs.map jsJoinElem) ++ "\""])
          | _ => Except.error "TypeError: colors.join is not a function"
        else pure q
    | none => pure q
  let q := if truthyOpt setV then q ++ ["set:" ++ jsToString (setV.getD .null)] else q
  let q := q ++ ["game:paper"]
  let q := q ++ ["unique:prints"]
  pure q

/-- The `URLSearchParams` content: `q` plus `page`/`order`/`dir` when truthy,
in insertion order (executors.js lines 135–140). -/
def scryfallParams (args : Json) : Except String (List (String × String)) := do
  let q ← scryfallQuery args
  let pageV ← destructureProp args "page"
  let orderV ← destructureProp args "order"
  let dirV ← destructureProp args "dir"
  pure ([("q", String.intercalate " " q)]
    ++ (if truthyOpt pageV then [("page", jsToString (pageV.getD .null))] else [])
    ++ (if truthyOpt orderV then [("order", jsToString (orderV.getD .null))] else [])
    ++ (if truthyOpt dirV then [("dir", jsToString (dirV.getD .null))] else []))

/-- External world of `scryfallSearch`: the outcome of
`fetch("https://api.scryfall.com/cards/search?" + params)` followed by
`res.json()`, as a function of the search parameters (URL percent-encoding is
transport-level and not modelled).  An `.error` is a network failure or a
JSON-decode failure — a rejected promise. -/
structure ScryEnv where
  fetchJson : List (String × String) → Except String Json

/-- `scryfallSearch` (executors.js lines 117–150).  Note: there is no
`try`/`catch` anywhere in this function, so every `.error` propagates to the
caller. -/
def scryfallSearch (env : ScryEnv) (args : Json) : Except String Json := do
  let params ← scryfallParams args
  let json ← env.fetchJson params
  -- `json.data || []`
  let dataOpt ← jsGetProp json "data"
  let dataVal := match dataOpt with
    | some v => if truthy v then v else Json.arr []
    | none => Json.arr []
  let dataList ← match dataVal with
    | .arr xs => pure xs
    | _ => Except.error "TypeError: json.data.map is not a function"
  let summary ← dataList.mapM (fun card => do
    let s ← jsGetProp card "set"
    let n ← jsGetProp card "collector_number"
    pure (Json.obj (objAssignOpt (objAssignOpt [] "set" s) "collector_number" n)))
  pure (Json.obj [("summary", Json.arr summary), ("details", Json.arr dataList)])

/-- The `scryfall_search` entry of `toolExecutors`: a bare `await
scryfallSearch(args)` with no `catch`, so a failure inside `scryfallSearch`
propagates out of the executor as a raised exception. -/
def scryfall_search_exec (env : ScryEnv) (args : Json) : ExecOutcome :=
  match scryfallSearch env args with
  | .ok v => .ok v
  | .error e => .exn e

/-! ## `executors.js` — credentials and bearer token -/

/-- External world of the credential helpers.  `secretOutcome` is the result
of `SecretsManagerClient.send` followed by `JSON.parse(response.SecretString)`;
`tokenFetch` is the result of `fetch(apiUrl + "/gettoken")` (with the Basic
`Authorization` header) followed by `res.json()`. -/
structure CredEnv where
  jwt_credentials : Option String
  secretOutcome : Except String Json
  tokenFetch : Except String Json

/-- Process-lifetime mutable state of `executors.js`: the module-level
`cachedCredentials` variable. -/
structure CredState where
  cachedCredentials : Option Json := none

/-- Ghost counters for the external calls actually issued. -/
structure Counters where
  secretsFetches : Nat := 0
  tokenExchanges : Nat := 0

/-- `getCredentials` (executors.js lines 7–14): return the cached secret if
present, otherwise fetch and cache it on success. -/
def getCredentials (env : CredEnv) (st : CredState) (cnt : Counters) :
    Except String Json × CredState × Counters :=
  match st.cachedCredentials with
  | some c => (.ok c, st, cnt)
  | none =>
      let cnt := { cnt with secretsFetches := cnt.secretsFetches + 1 }
      match env.secretOutcome with
      | .ok v => (.ok v, { st with cachedCredentials := some v }, cnt)
      | .error e => (.error e, st, cnt)

/-- `getBearerToken` (executors.js lines 157–175): obtain the basic-auth
secret (environment variable or `getCredentials`), then **always** issue a
`fetch` against the `/gettoken` endpoint and return `data.token`.  The token
itself is never cached anywhere. -/
def getBearerToken (env : CredEnv) (st : CredState) (cnt : Counters) :
    Except String (Option Json) × CredState × Counters :=
  let secretStep : Except String Json × CredState × Counters :=
    match env.jwt_credentials with
    | some s =>
        -- const [username, password] = process.env.JWT_CREDENTIALS.split(':')
        let parts := s.splitOn ":"
        (.ok (Json.obj ([("username", Json.str (parts.headD ""))] ++
          (match parts.get? 1 with
           | some p => [("password", Json.str p)]
           | none => []))), st, cnt)
    | none => getCredentials env st cnt
  match secretStep with
  | (.error e, st', cnt') => (.error e, st', cnt')
  | (.ok _secret, st', cnt') =>
      -- btoa(...) and the Basic header are folded into `tokenFetch`; the
      -- fetch against `${apiUrl}/gettoken` is issued unconditionally here.
      let cnt' := { cnt' with tokenExchanges := cnt'.tokenExchanges + 1 }
      match env.tokenFetch with
      | .error e => (.error e, st', cnt')
      | .ok data =>
          match jsGetProp data "token" with
          | .error e => (.error e, st', cnt')
          | .ok t => (.ok t, st', cnt')

/-! ## `executors.js` — `tracker_dynamic` -/

/-- One entry of an operation's `parameters` array in the backend's Swagger
document. -/
structure ParamSpec where
  name : String
  location : String
  required : Bool := false
  schemaType : Option String := none
  description : Option String := none

/-- The `content["application/json"].schema` of a request body. -/
structure BodySchema where
  properties : List (String × Json) := []
  required : Option (List String) := none

/-- One operation (`paths[path][method]`) of the Swagger document.
`requestBody = some none` models a `requestBody` whose
`content["application/json"].schema` chain is absent. -/
structure OpSpec where
  operationId : Option String := none
  description : Option String := none
  parameters : Option (List ParamSpec) := none
  requestBody : Option (Option BodySchema) := none

/-- The `client.spec.paths` object of the loaded Swagger client. -/
structure SwaggerSpec where
  paths : List (String × List (String × OpSpec))

/-- The opSpec lookup loop of `tracker_dynamic` (executors.js lines 47–56):
the inner `break` leaves the inner loop only, so a match in a later path
overwrites an earlier one. -/
def findOpSpec (spec : SwaggerSpec) (opId : String) : Option OpSpec :=
  spec.paths.foldl (fun acc pm =>
    match pm.2.find? (fun mo => mo.2.operationId == some opId) with
    | some mo => some mo.2
    | none => acc) none

/-- External world of `tracker_dynamic`: the credential world, the Swagger
client load (`Swagger({url, requestInterceptor})`, which attaches the Bearer
header), and the outcome of `client.execute({operationId, parameters,
requestBody})` — `res.body`, where `none` is an undefined body. -/
structure TrackerEnv where
  cred : CredEnv
  swaggerSpec : Except String SwaggerSpec
  executeOutcome : String → List (String × Json) → Option Json →
    Except String (Option Json)

/-- Flattening of one item carrying a nested `scryfall` object
(executors.js lines 91–105): `item.name = item.scryfall.name` followed by
`delete item.scryfall`.  Reading `.name` of a `null` scryfall value throws;
reading it off a non-object yields `undefined`, which erases `name` on
serialization (see `objAssignOpt`). -/
def flattenScryfallItem (item : Json) : Except String Json :=
  match item with
  | .obj fs =>
      if fs.any (fun f => f.1 == "scryfall") then do
        let sv := (fs.find? (fun f => f.1 == "scryfall")).map (·.2)
        let nm ← (match sv with
          | some Json.null =>
              Except.error "TypeError: Cannot read properties of null (reading 'name')"
          | some (Json.obj sfs) => Except.ok ((sfs.find? (fun f => f.1 == "name")).map (·.2))
          | some _ => Except.ok none
          | none => Except.ok (none : Option Json))
        pure (Json.obj (objAssignOpt fs "name" nm |>.filter (fun f => f.1 != "scryfall")))
      else pure item
  | _ => pure item

/-- The response normalization of `tracker_dynamic` (executors.js lines
87–107), applied when `res.body` is truthy: flatten a top-level `scryfall`
child, else flatten each child (`typeof` of an array is `"object"`, so array
elements are also visited via `Object.keys`). -/
def normalizeScryfallRefs (b : Json) : Except String Json :=
  match b with
  | .obj fs =>
      if fs.any (fun f => f.1 == "scryfall") then flattenScryfallItem b
      else do
        let fs' ← fs.mapM (fun f => do
          let v' ← flattenScryfallItem f.2
          pure (f.1, v'))
        pure (Json.obj fs')
  | .arr xs => do
      let xs' ← xs.mapM flattenScryfallItem
      pure (Json.arr xs')
  | other => pure other

/-- The `try`-block body of `tracker_dynamic` after the bearer token has been
obtained (executors.js lines 37–109): load the Swagger client, find the
operation spec, split the arguments into path/query parameters and request
body, execute, and normalize the response body. -/
def trackerTryBody (env : TrackerEnv) (operationId : String) (args : Json) :
    Except String (Option Json) := do
  let spec ← env.swaggerSpec
  let opSpec := findOpSpec spec operationId
  -- Split args into parameters and requestBody
  let paramArgs ← (match opSpec with
    | some sp => match sp.parameters with
      | some ps => ps.foldlM (fun acc p => do
          if p.location == "path" || p.location == "query" then do
            let v ← jsGetProp args p.name
            pure (match v with
              | some x => acc ++ [(p.name, x)]
              | none => acc)
          else pure acc) ([] : List (String × Json))
      | none => pure []
    | none => pure [])
  let requestBody ← (match opSpec with
    | some sp => match sp.requestBody with
      | some rb => do
          let bodyVal ← jsGetProp args "body"
          if truthyOpt bodyVal then pure bodyVal
          else do
            let props := match rb with
              | some bs => bs.properties
              | none => []
            let collected ← props.foldlM (fun acc kv => do
                let v ← jsGetProp args kv.1
                pure (match v with
                  | some x => acc ++ [(kv.1, x)]
                  | none => acc)) ([] : List (String × Json))
            pure (if collected.isEmpty then none else some (Json.obj collected))
      | none => pure none
    | none => pure none)
  let resBody ← env.executeOutcome operationId paramArgs requestBody
  match resBody with
  | some b =>
      if truthy b then do
        let b' ← normalizeScryfallRefs b
        pure (some b')
      else pure (some b)
  | none => pure none

/-- `{status: "error", message: err.message}`. -/
def trackerError (e : String) : Json :=
  Json.obj [("status", Json.str "error"), ("message", Json.str e)]

/-- `{status: "success", message: body}` — an undefined body leaves no
`message` property behind on serialization. -/
def trackerSuccess (body : Option Json) : Json :=
  Json.obj (objAssignOpt [("status", Json.str "success")] "message" body)

/-- The `tracker_dynamic` executor (executors.js lines 27–114).  The whole
body sits in `try { … } catch (err) { return {status:"error", message:
err.message} }`; the caller in `sendMessage` supplies no `bearerToken`, so
`getBearerToken` runs on **every** invocation. -/
def tracker_dynamic (env : TrackerEnv) (st : CredState) (cnt : Counters)
    (toolName : String) (args : Json) (bearerToken : Option Json := none) :
    Json × CredState × Counters :=
  let operationId := if jsStartsWith toolName "tracker_" then String.mk (toolName.data.drop 8)
    else toolName
  let (tokenStep, st, cnt) :=
    if bearerToken.isSome then (Except.ok bearerToken, st, cnt)
    else
      match getBearerToken env.cred st cnt with
      | (.ok t, st', cnt') => (Except.ok t, st', cnt')
      | (.error e, st', cnt') => (Except.error e, st', cnt')
  match tokenStep with
  | .error e => (trackerError e, st, cnt)
  | .ok _token =>
      match trackerTryBody env operationId args with
      | .ok body => (trackerSuccess body, st, cnt)
      | .error e => (trackerError e, st, cnt)

/-- Executor resolution of `sendMessage` (gptAgent.js lines 233–238) plus the
dispatch itself: `tracker_*` names go to `tracker_dynamic` (called as
`executor(toolName, args)` — no bearer token), other names are looked up in
`toolExecutors`, whose only other key is `scryfall_search`
(`local_singlecard` is commented out in executors.js).  `none` means no
executor was found. -/
def dispatchTool (sEnv : ScryEnv) (tEnv : TrackerEnv) (st : CredState)
    (cnt : Counters) (toolName : String) (args : Json) :
    Option (ExecOutcome × CredState × Counters) :=
  if jsStartsWith toolName "tracker_" then
    let (r, st', cnt') := tracker_dynamic tEnv st cnt toolName args none
    some (.ok r, st', cnt')
  else if toolName == "scryfall_search" then
    some (scryfall_search_exec sEnv args, st, cnt)
  else none

/-! ## `tools.js` — static tool descriptors and backend translation -/

/-- The `scryfall_search` tool descriptor array (tools.js lines 3–57). -/
def scryfallTool : List Json :=
  [Json.obj [
    ("type", Json.str "function"),
    ("name", Json.str "scryfall_search"),
    ("description", Json.str "Search Magic: The Gathering cards on Scryfall using different filters (name, color, oracle text, etc.). Returns possible card printings."),
    ("parameters", Json.obj [
      ("type", Json.str "object"),
      ("properties", Json.obj [
        ("name", Json.obj [("type", Json.str "string"),
          ("description", Json.str "Card name (exact or partial). Example: 'Stomping Ground'.")]),
        ("type", Json.obj [("type", Json.str "string"),
          ("description", Json.str "Filter by card type. Examples: 'creature', 'instant', 'sorcery', 'enchantment', 'artifact', 'planeswalker', 'land'.")]),
        ("reserved", Json.obj [("type", Json.str "boolean"),
          ("description", Json.str "Set to true to restrict results to only cards on the Reserved List.")]),
        ("oracle_text", Json.obj [("type", Json.str "string"),
          ("description", Json.str "Filter by words in rules text (Oracle text). Examples: 'proliferate', 'flying', 'vigilance'.")]),
        ("colors", Json.obj [("type", Json.str "array"),
          ("items", Json.obj [("type", Json.str "string"),
            ("enum", Json.arr [Json.str "W", Json.str "U", Json.str "B", Json.str "R", Json.str "G"])]),
          ("description", Json.str "Restrict results to specific color cards. W=White, U=Blue, B=Black, R=Red, G=Green. Multiple colors can be specified. Example: ['R', 'G']. The user should explicitly mention these colors. Note that if the user mentions colors for a card that is of type land, the user is wrong and you should not pass colors to the tool.")]),
        ("set", Json.obj [("type", Json.str "string"),
          ("description", Json.str "Optional set code or name, e.g. 'GPT' or 'Guildpact' as mentioned by the user.")]),
        ("page", Json.obj [("type", Json.str "integer"),
          ("description", Json.str "Results page number")]),
        ("order", Json.obj [("type", Json.str "string"),
          ("enum", Json.arr ([ "name", "set", "released", "rarity", "color", "usd", "tix", "eur", "cmc", "power", "toughness", "edhrec", "penny", "artist"].map Json.str)),
          ("description", Json.str "Sort order. Default: 'name'.")]),
        ("dir", Json.obj [("type", Json.str "string"),
          ("enum", Json.arr ([ "auto", "asc", "desc"].map Json.str)),
          ("description", Json.str "Sort direction.")])]),
      ("additionalProperties", Json.bool false)])]]

/-- The `file_search` tool descriptor array (tools.js lines 59–64). -/
def vectorStoreTool : List Json :=
  [Json.obj [
    ("type", Json.str "file_search"),
    ("vector_store_ids", Json.arr [Json.str "vs_68e4d320b04c8191a374759b35b2376d",
      Json.str "vs_68f1231a32488191b7e63671b8b8b264"])]]

/-- The `local_singlecard` tool descriptor as it appears, commented out, in
tools.js lines 66–86.  It is **not** part of `module.exports` (tools.js line
137 exports only `scryfallTool`, `vectorStoreTool` and
`fetchTrackerFunctions`), so requiring it yields `undefined` — hence
`Option`, with the exported value being `none`. -/
def toolsExports_singlecardTool : Option (List Json) := none

/-- `path.replace(/[\/{}]/g, "_")`. -/
def sanitizePath (p : String) : String :=
  String.mk (p.data.map (fun c =>
    if c == '/' || c == Char.ofNat 123 || c == Char.ofNat 125 then '_' else c))

/-- Translation of one Swagger operation into a tool descriptor
(tools.js lines 95–128). -/
def trackerToolOf (path method : String) (details : OpSpec) : Json :=
  let paramProps : List (String × Json) :=
    (details.parameters.getD []).foldl (fun acc param =>
      objAssign acc param.name (Json.obj [
        ("type", Json.str (param.schemaType.getD "string")),
        ("description", Json.str (param.description.getD ""))])) []
  let requiredParams : List String :=
    ((details.parameters.getD []).filter (fun p => p.required)).map (fun p => p.name)
  let (paramProps, requiredParams) :=
    match details.requestBody with
    | some (some bs) =>
        (bs.properties.foldl (fun acc (kv : String × Json) => objAssign acc kv.1 kv.2) paramProps,
         requiredParams ++ bs.required.getD [])
    | _ => (paramProps, requiredParams)
  let toolName :=
    match details.operationId with
    | some oid => if oid != "" then "tracker_" ++ oid
        else "tracker_" ++ method ++ "_" ++ sanitizePath path
    | none => "tracker_" ++ method ++ "_" ++ sanitizePath path
  let descr :=
    match details.description with
    | some d => if d != "" then d
        else "Tracker API call for " ++ toUpperJs method ++ " " ++ path
    | none => "Tracker API call for " ++ toUpperJs method ++ " " ++ path
  Json.obj [
    ("type", Json.str "function"),
    ("name", Json.str toolName),
    ("description", Json.str descr),
    ("parameters", Json.obj [
      ("type", Json.str "object"),
      ("properties", Json.obj paramProps),
      ("required", Json.arr (requiredParams.map Json.str))])]

/-- External world of `fetchTrackerFunctions`: the outcome of
`Swagger(swaggerUrl)` (schema retrieval plus client construction). -/
structure ToolsEnv where
  swagger : Except String SwaggerSpec

/-- `fetchTrackerFunctions` (tools.js lines 88–135): translate every
operation of the backend schema into one tool descriptor; the whole body is
inside `try { … } catch (err) { return [] }`, so any retrieval or
translation failure yields the empty list. -/
def fetchTrackerFunctions (env : ToolsEnv) : List Json :=
  match env.swagger with
  | .error _ => []
  | .ok spec =>
      spec.paths.foldl (fun acc pm =>
        acc ++ pm.2.map (fun mo => trackerToolOf pm.1 mo.1 mo.2)) []

/-! ## `gptAgent.js` — tool catalog per step -/

/-- `getToolsForStep` (gptAgent.js lines 121–128).  gptAgent.js line 20
imports `singlecardTool` from tools.js, but tools.js does not export it, so
the imported binding is `undefined` and the spread
`[...scryfallTool, ...singlecardTool, ...vectorStoreTool]` for step 1 throws
a `TypeError`.  A step other than 1 and 2 returns `undefined` (`none`). -/
def getToolsForStep (env : ToolsEnv) (step : Nat) : Except String (Option (List Json)) :=
  if step == 1 then
    match toolsExports_singlecardTool with
    | some sct => .ok (some (scryfallTool ++ sct ++ vectorStoreTool))
    | none => .error "TypeError: singlecardTool is not iterable"
  else if step == 2 then .ok (some (fetchTrackerFunctions env))
  else .ok none

/-! ## `gptAgent.js` — the message type and the tool-execution loop -/

/-- One entry of the `messages` array handled by `sendMessage`.  JavaScript
messages are duck-typed objects; the model carries exactly the properties the
loop reads or writes, with `none` for an absent property.  `Option`-equality
(`==`) then coincides with the strict JavaScript comparisons the source
performs on these properties. -/
structure Msg where
  role : Option String := none
  content : Option Json := none
  type : Option String := none
  call_id : Option String := none
  name : Option String := none
  arguments : Option String := none
  output : Option String := none

/-- A `function_call` item of a model response, as consumed by the loop:
`name`, `call_id` and the JSON-encoded `arguments` string. -/
structure FC where
  name : String
  call_id : String
  arguments : Option String := none

/-- The message pushed for a function call (`messages.push(fc)`). -/
def fcMsg (fc : FC) : Msg :=
  { type := some "function_call", call_id := some fc.call_id,
    name := some fc.name, arguments := fc.arguments }

/-- The message pushed for a tool result (gptAgent.js lines 262–266 and
278–282): `{call_id, type: "function_call_output", output}`. -/
def outMsg (cid out : String) : Msg :=
  { call_id := some cid, type := some "function_call_output", output := some out }

/-- An assistant text message. -/
def assistantMsg (c : Json) : Msg :=
  { role := some "assistant", content := some c }

/-- The removal condition of the superseding passes (gptAgent.js lines
253–261 and 269–277), evaluated against the current `messages` array `cur`:
remove an older `function_call` with the same tool name and a different
correlation id, and remove a `function_call_output` with a different
correlation id whose id is matched by some message in `cur` named
`toolName`. -/
def genCond (toolName cid : String) (m : Msg) (cur : List Msg) : Bool :=
  (m.type == some "function_call" && m.name == some toolName && m.call_id != some cid) ||
  (m.type == some "function_call_output" && m.call_id != some cid &&
    cur.any (fun msg => msg.call_id == m.call_id && msg.name == some toolName))

/-- The backwards in-place splice loop `for (let i = messages.length - 1;
i >= 0; i--) { if (cond) messages.splice(i, 1) }`: elements are visited right
to left; the condition sees the elements to the left of the visited one
unchanged and, to its right, only the survivors so far.  `revLeft` is the
reversed not-yet-visited part. -/
def spliceGo (cond : Msg → List Msg → Bool) : List Msg → List Msg → List Msg
  | [], right => right
  | m :: revLeft, right =>
      if cond m (revLeft.reverse ++ m :: right) then spliceGo cond revLeft right
      else spliceGo cond revLeft (m :: right)

/-- One full backwards splice pass over `msgs`. -/
def removePass (cond : Msg → List Msg → Bool) (msgs : List Msg) : List Msg :=
  spliceGo cond msgs.reverse []

/-- Executor resolution (gptAgent.js lines 233–238): names starting with
`tracker_` resolve to `tracker_dynamic`; the only other key of
`toolExecutors` in executors.js is `scryfall_search`. -/
def hasExecutor (toolName : String) : Bool :=
  jsStartsWith toolName "tracker_" || toolName == "scryfall_search"

/-- The result object of a `scryfall_search` execution as the loop consumes
it: the `summary` array (whose length drives the early exit, and whose
stringification is the recorded output) and the `details` value (surfaced as
the assistant answer on early exit). -/
structure ScryResult where
  summary : List Json
  details : Json

/-- External world of one batch of tool executions.  Each function-call item
carries a fresh correlation id, so the outcomes of the awaited executor calls
are abstracted as functions of that id: `scry` is the value produced by
`scryfallSearch` for the `scryfall_search` call with the given id, and
`otherOutput` is the final output string recorded for a non-scryfall executor
(`typeof result === "string" ? result : JSON.stringify(result)`).  `parseOk`
tells whether `JSON.parse` succeeds on an `arguments` string. -/
structure LoopEnv where
  parseOk : String → Bool
  scry : String → ScryResult
  otherOutput : String → String

/-- `const args = fc.arguments ? JSON.parse(fc.arguments) : {}` — parsing is
attempted only on a truthy `arguments` string and a failure throws out of
`sendMessage`. -/
def argsOk (env : LoopEnv) (fc : FC) : Bool :=
  match fc.arguments with
  | none => true
  | some s => if s == "" then true else env.parseOk s

/-- The loop state across one batch: the working `messages` array and the
`lastToolName` / `lastScryfallResult` locals of the `while` body
(gptAgent.js lines 224–225); `lastScryfallResult` starts as `[]`, whose
`summary` property is `undefined`, modelled as `none`. -/
structure BatchState where
  msgs : List Msg
  lastToolName : Option String := none
  lastScry : Option ScryResult := none

/-- One iteration of `for (const fc of functionCalls)` (gptAgent.js lines
226–292): push the call, parse its arguments, resolve the executor (skip and
log if none), execute, run the superseding splice pass, push the output, and
record the scryfall result.  An `.error` is a thrown exception aborting
`sendMessage`. -/
def execStep (env : LoopEnv) (st : BatchState) (fc : FC) : Except String BatchState :=
  let st := { st with msgs := st.msgs ++ [fcMsg fc], lastToolName := some fc.name }
  if !(argsOk env fc) then .error "SyntaxError: Unexpected token in JSON"
  else if !(hasExecutor fc.name) then
    -- console.log(`No executor found for tool: ...`); continue
    .ok st
  else if fc.name == "scryfall_search" then
    let result := env.scry fc.call_id
    let msgs := removePass (genCond "scryfall_search" fc.call_id) st.msgs
    .ok { st with
      msgs := msgs ++ [outMsg fc.call_id (Json.stringify (Json.arr result.summary))],
      lastScry := some result }
  else
    let msgs := removePass (genCond fc.name fc.call_id) st.msgs
    .ok { st with msgs := msgs ++ [outMsg fc.call_id (env.otherOutput fc.call_id)] }

/-- The whole `for (const fc of functionCalls)` loop over one batch. -/
def execBatch (env : LoopEnv) (st : BatchState) : List FC → Except String BatchState
  | [] => .ok st
  | fc :: rest =>
      match execStep env st fc with
      | .error e => .error e
      | .ok st' => execBatch env st' rest

/-- The end-of-batch decision (gptAgent.js lines 294–315): if the last
requested tool name is `scryfall_search` and the recorded summary has more
than one entry, push the details as an assistant message and stop (`true`,
no further model call this turn); otherwise a follow-up model call is issued
(`false`). -/
def runBatch (env : LoopEnv) (st : BatchState) (fcs : List FC) :
    Except String (List Msg × Bool) :=
  match execBatch env st fcs with
  | .error e => .error e
  | .ok st' =>
      match st'.lastScry with
      | some r =>
          if st'.lastToolName == some "scryfall_search" && decide (1 < r.summary.length) then
            .ok (st'.msgs ++ [assistantMsg r.details], true)
          else .ok (st'.msgs, false)
      | none => .ok (st'.msgs, false)

/-- The tools actually executed in a batch: those whose name resolves to an
executor (the others are skipped with a log line). -/
def executedCalls (fcs : List FC) : List FC :=
  fcs.filter (fun fc => hasExecutor fc.name)

/-! ## The pairing property (spec §3 / §8) -/

/-- Is this message a tool-call request entry? -/
def isCallMsg (m : Msg) : Bool := m.type == some "function_call"

/-- Is this message a tool-result entry? -/
def isOutMsg (m : Msg) : Bool := m.type == some "function_call_output"

/-- The pairing invariant, as the spec states it: every tool-call request has
exactly one matching result (same correlation id) and that result is
immediately adjacent; and no result lacks a preceding matching request. -/
def PairedHistory (msgs : List Msg) : Prop :=
  (∀ pre m post, msgs = pre ++ m :: post → isCallMsg m = true →
      (∃ o post', post = o :: post' ∧ isOutMsg o = true ∧ o.call_id = m.call_id) ∧
      msgs.countP (fun o => isOutMsg o && o.call_id == m.call_id) = 1) ∧
  (∀ pre m post, msgs = pre ++ m :: post → isOutMsg m = true →
      ∃ c ∈ pre, isCallMsg c = true ∧ c.call_id = m.call_id)

/-! ## Block-shaped histories

A history produced by the loop interleaves plain conversational messages with
adjacent call/result pairs.  `HBlock` captures that shape; the lemmas below
show the splice passes map block-shaped histories to block-shaped
histories. -/

/-- A history block: a plain message (no `type`, no `call_id`) or an adjacent
tool-call/result pair. -/
inductive HBlock where
  | plain (role : String) (content : Json)
  | pair (name cid : String) (args : Option String) (out : String)

/-- The messages of one block. -/
def blockMsgs : HBlock → List Msg
  | .plain r c => [{ role := some r, content := some c }]
  | .pair n cid args out => [fcMsg ⟨n, cid, args⟩, outMsg cid out]

/-- The messages of a block list. -/
def blocksMsgs (bs : List HBlock) : List Msg := bs.flatMap blockMsgs

/-- The correlation ids of a block. -/
def blockIds : HBlock → List String
  | .plain _ _ => []
  | .pair _ cid _ _ => [cid]

/-- All correlation ids of a block list. -/
def idsOf (bs : List HBlock) : List String := bs.flatMap blockIds

/-- Which blocks survive the splice pass for tool `N` and current id `cid`:
plain messages always; a pair is removed exactly when it is an older
(different-id) pair of the same tool. -/
def keepBlock (N cid : String) : HBlock → Bool
  | .plain _ _ => true
  | .pair n c _ _ => !(n == N && c != cid)

theorem blocksMsgs_append (a b : List HBlock) :
    blocksMsgs (a ++ b) = blocksMsgs a ++ blocksMsgs b := by
  simp [blocksMsgs]

theorem idsOf_append (a b : List HBlock) :
    idsOf (a ++ b) = idsOf a ++ idsOf b := by
  simp [idsOf]

theorem sublist_flatMap {α β : Type} {l₁ l₂ : List α} (h : l₁.Sublist l₂) (f : α → List β) :
    (l₁.flatMap f).Sublist (l₂.flatMap f) := by
  induction h with
  | slnil => simp
  | cons a h ih =>
      simp only [List.flatMap_cons]
      exact ih.trans (List.sublist_append_right _ _)
  | cons₂ a h ih =>
      simp only [List.flatMap_cons]
      exact ih.append_left _

/-- Any message of a block list with a `call_id` carries one of the list's
ids. -/
theorem mem_blocksMsgs_call_id {bs : List HBlock} {m : Msg} (hm : m ∈ blocksMsgs bs) :
    m.call_id = none ∨ ∃ c ∈ idsOf bs, m.call_id = some c := by
  induction bs with
  | nil => simp [blocksMsgs] at hm
  | cons b bs ih =>
      simp only [blocksMsgs, List.flatMap_cons, List.mem_append] at hm
      rcases hm with hm | hm
      · cases b with
        | plain r c =>
            simp only [blockMsgs, List.mem_singleton] at hm
            subst hm
            exact Or.inl rfl
        | pair n c args out =>
            simp only [blockMsgs, List.mem_cons, List.mem_singleton] at hm
            rcases hm with hm | hm | hm
            · subst hm
              exact Or.inr ⟨c, by simp [idsOf, blockIds], rfl⟩
            · subst hm
              exact Or.inr ⟨c, by simp [idsOf, blockIds], rfl⟩
            · simp at hm
      · rcases ih hm with h | ⟨c, hc, hcid⟩
        · exact Or.inl h
        · refine Or.inr ⟨c, ?_, hcid⟩
          have hids : idsOf (b :: bs) = blockIds b ++ idsOf bs := by
            simp [idsOf]
          rw [hids]
          exact List.mem_append_right _ hc

/-- No message of a block list whose ids avoid `c` matches the inner `find`
predicate of the splice condition. -/
theorem any_blocksMsgs_false {bs : List HBlock} {c N : String} (h : c ∉ idsOf bs) :
    (blocksMsgs bs).any (fun msg => msg.call_id == some c && msg.name == some N) = false := by
  rw [List.any_eq_false]
  intro m hm
  rcases mem_blocksMsgs_call_id hm with hnone | ⟨c', hc', hcid⟩
  · simp [hnone]
  · have : c' ≠ c := fun hcc => h (hcc ▸ hc')
    simp [hcid, this]


theorem some_beq_some (a b : String) : ((some a : Option String) == some b) = (a == b) := rfl

theorem some_bne_some (a b : String) : ((some a : Option String) != some b) = (a != b) := rfl

/-- The splice condition never fires on a plain conversational message. -/
theorem genCond_plain (N cid r : String) (co : Json) (cur : List Msg) :
    genCond N cid { role := some r, content := some co } cur = false := rfl

/-- Value of the splice condition on a result message. -/
theorem genCond_out (N cid c out : String) (cur : List Msg) :
    genCond N cid (outMsg c out) cur
      = ((c != cid) && cur.any (fun msg => msg.call_id == some c && msg.name == some N)) := by
  simp [genCond, outMsg, some_bne_some]

/-- Value of the splice condition on a call message. -/
theorem genCond_call (N cid n c : String) (args : Option String) (cur : List Msg) :
    genCond N cid (fcMsg ⟨n, c, args⟩) cur = ((n == N) && (c != cid)) := by
  simp [genCond, fcMsg, some_bne_some]

/-- The main splice lemma: one backwards splice pass over a block-shaped
history (with pairwise-distinct ids) removes exactly the older pairs of the
spliced tool and keeps everything else, provided the already-processed
`right` part carries no message with one of the history's ids. -/
theorem spliceGo_blocksMsgs (N cid : String) :
    ∀ (bs : List HBlock) (right : List Msg),
    (idsOf bs).Nodup →
    (∀ m ∈ right, ∀ c ∈ idsOf bs, m.call_id ≠ some c) →
    spliceGo (genCond N cid) (blocksMsgs bs).reverse right
      = blocksMsgs (bs.filter (keepBlock N cid)) ++ right := by
  intro bs
  induction bs using List.reverseRecOn with
  | nil =>
      intro right _ _
      simp [blocksMsgs, spliceGo]
  | append_singleton bs b ih =>
      intro right hnd hright
      have hids : idsOf (bs ++ [b]) = idsOf bs ++ blockIds b := by
        simp [idsOf_append, idsOf]
      have hnd' : (idsOf bs).Nodup := by
        rw [hids] at hnd
        exact (List.nodup_append.mp hnd).1
      have hsubids : ∀ c ∈ idsOf bs, c ∈ idsOf (bs ++ [b]) := by
        intro c hc
        rw [hids]
        exact List.mem_append_left _ hc
      rw [blocksMsgs_append, List.reverse_append, List.filter_append]
      cases b with
      | plain r co =>
          have hpm : blocksMsgs [HBlock.plain r co]
              = [{ role := some r, content := some co }] := by
            simp [blocksMsgs, blockMsgs]
          rw [hpm]
          rw [show ([{ role := some r, content := some co }] : List Msg).reverse
              = [{ role := some r, content := some co }] from rfl]
          rw [List.singleton_append, spliceGo, genCond_plain]
          simp only [Bool.false_eq_true, if_false]
          rw [ih ({ role := some r, content := some co } :: right) hnd' ?hrp]
          · rw [show List.filter (keepBlock N cid) [HBlock.plain r co]
                = [HBlock.plain r co] from rfl, blocksMsgs_append, hpm]
            simp
          case hrp =>
            intro m hm c hc
            rcases List.mem_cons.mp hm with hm | hm
            · subst hm; simp
            · exact hright m hm c (hsubids c hc)
      | pair n c args out =>
          have hfresh : c ∉ idsOf bs := by
            rw [hids] at hnd
            have hsplit := List.nodup_append.mp hnd
            intro hcin
            exact hsplit.2.2 hcin (by simp [blockIds])
          have hpm : blocksMsgs [HBlock.pair n c args out]
              = [fcMsg ⟨n, c, args⟩, outMsg c out] := by
            simp [blocksMsgs, blockMsgs]
          rw [hpm]
          rw [show ([fcMsg ⟨n, c, args⟩, outMsg c out] : List Msg).reverse
              = [outMsg c out, fcMsg ⟨n, c, args⟩] from rfl]
          rw [List.cons_append, spliceGo, genCond_out]
          have hcid_mem : c ∈ idsOf (bs ++ [HBlock.pair n c args out]) := by
            rw [hids]
            exact List.mem_append_right _ (by simp [blockIds])
          have hro : right.any
              (fun msg => msg.call_id == some c && msg.name == some N) = false := by
            rw [List.any_eq_false]
            intro m hm
            have hmne := hright m hm c hcid_mem
            rcases hmc : m.call_id with _ | c'
            · simp
            · have hcc : c' ≠ c := fun h => hmne (by rw [hmc, h])
              simp [hcc]
          have hAny : (([fcMsg ⟨n, c, args⟩] ++ (blocksMsgs bs).reverse).reverse
              ++ outMsg c out :: right).any
              (fun msg => msg.call_id == some c && msg.name == some N) = (n == N) := by
            simp only [List.reverse_append, List.reverse_cons, List.reverse_nil,
              List.reverse_reverse, List.nil_append, List.singleton_append,
              List.any_append, List.any_cons, List.any_nil]
            rw [any_blocksMsgs_false hfresh, hro]
            simp [fcMsg, outMsg, some_beq_some]
          rw [hAny]
          by_cases hn : n = N
          · subst hn
            by_cases hc : c = cid
            · -- the pair carries the current id: both entries survive
              subst hc
              simp only [bne_self_eq_false, Bool.false_and, Bool.false_eq_true, if_false]
              rw [List.singleton_append, spliceGo, genCond_call]
              simp only [bne_self_eq_false, Bool.and_false, Bool.false_eq_true, if_false]
              rw [ih (fcMsg ⟨n, c, args⟩ :: outMsg c out :: right) hnd' ?hrk1]
              · rw [show List.filter (keepBlock n c) [HBlock.pair n c args out]
                    = [HBlock.pair n c args out] from by simp [keepBlock],
                  blocksMsgs_append, hpm]
                simp
              case hrk1 =>
                intro m hm c' hc'
                have hne : c ≠ c' := fun h => hfresh (h ▸ hc')
                rcases List.mem_cons.mp hm with hm | hm
                · subst hm
                  simp only [fcMsg, ne_eq, Option.some.injEq]
                  exact hne
                rcases List.mem_cons.mp hm with hm | hm
                · subst hm
                  simp only [outMsg, ne_eq, Option.some.injEq]
                  exact hne
                · exact hright m hm c' (hsubids c' hc')
            · -- an older pair of the spliced tool: both entries removed
              have hcb : (c != cid) = true := by simp [hc]
              simp only [hcb, beq_self_eq_true, Bool.and_self, if_true]
              rw [List.singleton_append, spliceGo, genCond_call]
              simp only [hcb, beq_self_eq_true, Bool.true_and, if_true]
              rw [ih right hnd' (fun m hm c' hc' => hright m hm c' (hsubids c' hc'))]
              rw [show List.filter (keepBlock n cid) [HBlock.pair n c args out]
                  = [] from by simp [keepBlock, hc], blocksMsgs_append]
              simp [blocksMsgs]
          · -- a pair of a different tool: both entries survive
            have hnb : (n == N) = false := by simp [hn]
            simp only [hnb, Bool.and_false, Bool.false_eq_true, if_false]
            rw [List.singleton_append, spliceGo, genCond_call]
            simp only [hnb, Bool.false_and, Bool.false_eq_true, if_false]
            rw [ih (fcMsg ⟨n, c, args⟩ :: outMsg c out :: right) hnd' ?hrk2]
            · rw [show List.filter (keepBlock N cid) [HBlock.pair n c args out]
                  = [HBlock.pair n c args out] from by simp [keepBlock, hn],
                blocksMsgs_append, hpm]
              simp
            case hrk2 =>
              intro m hm c' hc'
              have hne : c ≠ c' := fun h => hfresh (h ▸ hc')
              rcases List.mem_cons.mp hm with hm | hm
              · subst hm
                simp only [fcMsg, ne_eq, Option.some.injEq]
                exact hne
              rcases List.mem_cons.mp hm with hm | hm
              · subst hm
                simp only [outMsg, ne_eq, Option.some.injEq]
                exact hne
              · exact hright m hm c' (hsubids c' hc')

/-- The splice pass run by `execStep`: the freshly pushed call survives and
exactly the older same-tool pairs disappear. -/
theorem removePass_blocks (N cid : String) (args : Option String) (bs : List HBlock)
    (hnd : (idsOf bs).Nodup) (hfresh : cid ∉ idsOf bs) :
    removePass (genCond N cid) (blocksMsgs bs ++ [fcMsg ⟨N, cid, args⟩])
      = blocksMsgs (bs.filter (keepBlock N cid)) ++ [fcMsg ⟨N, cid, args⟩] := by
  rw [removePass, List.reverse_append]
  rw [show ([fcMsg ⟨N, cid, args⟩] : List Msg).reverse = [fcMsg ⟨N, cid, args⟩] from rfl]
  rw [List.singleton_append, spliceGo, genCond_call]
  simp only [bne_self_eq_false, Bool.and_false, Bool.false_eq_true, if_false]
  refine spliceGo_blocksMsgs N cid bs [fcMsg ⟨N, cid, args⟩] hnd ?_
  intro m hm c hc
  rcases List.mem_singleton.mp hm with hm
  subst hm
  simp only [fcMsg, ne_eq, Option.some.injEq]
  exact fun h => hfresh (h ▸ hc)

/-- The output string recorded for an executed call. -/
def stepOutput (env : LoopEnv) (fc : FC) : String :=
  if fc.name == "scryfall_search" then Json.stringify (Json.arr (env.scry fc.call_id).summary)
  else env.otherOutput fc.call_id

/-- A call whose name has no registered executor is pushed and then skipped:
the state advances by the bare request only, and the batch continues. -/
theorem execStep_skip (env : LoopEnv) (st : BatchState) (fc : FC)
    (hargs : argsOk env fc = true) (hexec : hasExecutor fc.name = false) :
    execStep env st fc
      = .ok { st with msgs := st.msgs ++ [fcMsg fc], lastToolName := some fc.name } := by
  unfold execStep
  rw [hargs, hexec]
  rfl

/-- `execStep` only throws on an argument-parse failure. -/
theorem execStep_ok (env : LoopEnv) (st : BatchState) (fc : FC)
    (hargs : argsOk env fc = true) :
    ∃ st', execStep env st fc = .ok st' := by
  unfold execStep
  rw [hargs]
  simp only [Bool.not_true, Bool.false_eq_true, if_false]
  split
  · exact ⟨_, rfl⟩
  · split
    · exact ⟨_, rfl⟩
    · exact ⟨_, rfl⟩

/-- An executed call (registered executor, parsable arguments, fresh id) maps
a block-shaped history to a block-shaped history: the superseded same-tool
pairs disappear and the new adjacent pair lands at the end. -/
theorem execStep_executed (env : LoopEnv) (bs : List HBlock) (lt : Option String)
    (ls : Option ScryResult) (fc : FC)
    (hnd : (idsOf bs).Nodup) (hfresh : fc.call_id ∉ idsOf bs)
    (hargs : argsOk env fc = true) (hexec : hasExecutor fc.name = true) :
    execStep env ⟨blocksMsgs bs, lt, ls⟩ fc
      = .ok ⟨blocksMsgs (bs.filter (keepBlock fc.name fc.call_id)
            ++ [HBlock.pair fc.name fc.call_id fc.arguments (stepOutput env fc)]),
          some fc.name,
          if fc.name == "scryfall_search" then some (env.scry fc.call_id) else ls⟩ := by
  have hfc : fc = ⟨fc.name, fc.call_id, fc.arguments⟩ := rfl
  unfold execStep
  rw [hargs, hexec]
  simp only [Bool.not_true, Bool.false_eq_true, if_false]
  rw [blocksMsgs_append]
  rw [show blocksMsgs [HBlock.pair fc.name fc.call_id fc.arguments (stepOutput env fc)]
      = [fcMsg ⟨fc.name, fc.call_id, fc.arguments⟩, outMsg fc.call_id (stepOutput env fc)]
      from by simp [blocksMsgs, blockMsgs]]
  by_cases hscry : fc.name = "scryfall_search"
  · rw [if_pos (by simp [hscry]), if_pos (by simp [hscry])]
    rw [show (⟨blocksMsgs bs, lt, ls⟩ : BatchState).msgs ++ [fcMsg fc]
        = blocksMsgs bs ++ [fcMsg ⟨fc.name, fc.call_id, fc.arguments⟩] from rfl]
    rw [hscry]
    rw [removePass_blocks "scryfall_search" fc.call_id fc.arguments bs hnd hfresh]
    rw [show stepOutput env fc = Json.stringify (Json.arr (env.scry fc.call_id).summary)
      from by simp [stepOutput, hscry]]
    simp [hscry, List.append_assoc]
  · rw [if_neg (by simp [hscry]), if_neg (by simp [hscry])]
    rw [show (⟨blocksMsgs bs, lt, ls⟩ : BatchState).msgs ++ [fcMsg fc]
        = blocksMsgs bs ++ [fcMsg ⟨fc.name, fc.call_id, fc.arguments⟩] from rfl]
    rw [removePass_blocks fc.name fc.call_id fc.arguments bs hnd hfresh]
    rw [show stepOutput env fc = env.otherOutput fc.call_id
      from by simp [stepOutput, hscry]]
    simp [List.append_assoc]

/-- A batch whose calls all resolve to executors, parse, and carry fresh
pairwise-distinct ids keeps the history block-shaped with pairwise-distinct
ids. -/
theorem execBatch_blocks (env : LoopEnv) :
    ∀ (fcs : List FC) (bs : List HBlock) (lt : Option String) (ls : Option ScryResult),
    (idsOf bs ++ fcs.map (fun f => f.call_id)).Nodup →
    (∀ fc ∈ fcs, hasExecutor fc.name = true ∧ argsOk env fc = true) →
    ∃ (bs' : List HBlock) (st' : BatchState),
      execBatch env ⟨blocksMsgs bs, lt, ls⟩ fcs = .ok st' ∧
      st'.msgs = blocksMsgs bs' ∧ (idsOf bs').Nodup := by
  intro fcs
  induction fcs with
  | nil =>
      intro bs lt ls hnd _
      refine ⟨bs, ⟨blocksMsgs bs, lt, ls⟩, rfl, rfl, ?_⟩
      simpa using hnd
  | cons fc rest ih =>
      intro bs lt ls hnd hall
      have hnd' : (idsOf bs).Nodup := (List.nodup_append.mp hnd).1
      have hfresh : fc.call_id ∉ idsOf bs := by
        intro hin
        exact (List.nodup_append.mp hnd).2.2 hin (by simp)
      obtain ⟨hexec, hargs⟩ := hall fc (by simp)
      have hstep := execStep_executed env bs lt ls fc hnd' hfresh hargs hexec
      have hbatch : execBatch env ⟨blocksMsgs bs, lt, ls⟩ (fc :: rest)
          = execBatch env ⟨blocksMsgs (bs.filter (keepBlock fc.name fc.call_id)
              ++ [HBlock.pair fc.name fc.call_id fc.arguments (stepOutput env fc)]),
            some fc.name,
            if fc.name == "scryfall_search" then some (env.scry fc.call_id) else ls⟩ rest := by
        rw [execBatch, hstep]
      rw [hbatch]
      refine ih (bs.filter (keepBlock fc.name fc.call_id)
          ++ [HBlock.pair fc.name fc.call_id fc.arguments (stepOutput env fc)]) _ _ ?_
          (fun f hf => hall f (by simp [hf]))
      have hsub : (idsOf (bs.filter (keepBlock fc.name fc.call_id))).Sublist (idsOf bs) :=
        sublist_flatMap (List.filter_sublist _) _
      have hshape : idsOf (bs.filter (keepBlock fc.name fc.call_id)
            ++ [HBlock.pair fc.name fc.call_id fc.arguments (stepOutput env fc)])
            ++ rest.map (fun f => f.call_id)
          = idsOf (bs.filter (keepBlock fc.name fc.call_id))
            ++ (fc.call_id :: rest.map (fun f => f.call_id)) := by
        rw [idsOf_append]
        simp [idsOf, blockIds]
      rw [hshape]
      have hbig : (idsOf bs ++ (fc.call_id :: rest.map (fun f => f.call_id))).Nodup := by
        simpa using hnd
      exact List.Nodup.sublist (hsub.append (List.Sublist.refl _)) hbig

/-- `execStep` on a `scryfall_search` call records the scryfall result and
the tool name. -/
theorem execStep_scry (env : LoopEnv) (st : BatchState) (f : FC)
    (hargs : argsOk env f = true) (hname : f.name = "scryfall_search") :
    execStep env st f = .ok
      ⟨removePass (genCond "scryfall_search" f.call_id) (st.msgs ++ [fcMsg f])
          ++ [outMsg f.call_id (Json.stringify (Json.arr (env.scry f.call_id).summary))],
        some f.name, some (env.scry f.call_id)⟩ := by
  unfold execStep
  rw [hargs]
  simp [hasExecutor, hname]

/-- After a batch whose last requested call is a `scryfall_search`, the
`lastToolName`/`lastScryfallResult` locals hold that call's name and
result. -/
theorem execBatch_lastScry (env : LoopEnv) :
    ∀ (fcs : List FC) (st : BatchState) (fc : FC),
    (∀ f ∈ fcs, argsOk env f = true) →
    fcs.getLast? = some fc → fc.name = "scryfall_search" →
    ∃ st', execBatch env st fcs = .ok st' ∧
      st'.lastToolName = some fc.name ∧
      st'.lastScry = some (env.scry fc.call_id) := by
  intro fcs
  induction fcs with
  | nil =>
      intro st fc _ hlast
      simp at hlast
  | cons f rest ih =>
      intro st fc hargs hlast hname
      cases rest with
      | nil =>
          have hfc : f = fc := by simpa using hlast
          subst hfc
          have hstep := execStep_scry env st f (hargs f (by simp)) hname
          refine ⟨⟨removePass (genCond "scryfall_search" f.call_id) (st.msgs ++ [fcMsg f])
              ++ [outMsg f.call_id (Json.stringify (Json.arr (env.scry f.call_id).summary))],
            some f.name, some (env.scry f.call_id)⟩, ?_, rfl, rfl⟩
          rw [execBatch, hstep]
          rfl
      | cons r rest' =>
          have hlast' : (r :: rest').getLast? = some fc := by
            rwa [List.getLast?_cons_cons] at hlast
          obtain ⟨st₁, hst₁⟩ := execStep_ok env st f (hargs f (by simp))
          obtain ⟨st', h1, h2, h3⟩ := ih st₁ fc
            (fun g hg => hargs g (by simp [hg])) hlast' hname
          refine ⟨st', ?_, h2, h3⟩
          rw [execBatch, hst₁]
          exact h1

theorem cons_eq_append_cons {α : Type} {x m : α} {xs pre post : List α}
    (h : x :: xs = pre ++ m :: post) :
    (pre = [] ∧ m = x ∧ post = xs) ∨
    ∃ pre', pre = x :: pre' ∧ xs = pre' ++ m :: post := by
  cases pre with
  | nil =>
      simp only [List.nil_append, List.cons.injEq] at h
      exact Or.inl ⟨rfl, h.1.symm, h.2.symm⟩
  | cons y pre' =>
      simp only [List.cons_append, List.cons.injEq] at h
      exact Or.inr ⟨pre', by rw [h.1], h.2⟩

/-- No result message of a block list matches an id outside the list. -/
theorem countP_blocksMsgs_out (bs : List HBlock) (c : String) (h : c ∉ idsOf bs) :
    (blocksMsgs bs).countP (fun o => isOutMsg o && o.call_id == some c) = 0 := by
  induction bs with
  | nil => rfl
  | cons b bs ih =>
      have hids : idsOf (b :: bs) = blockIds b ++ idsOf bs := by simp [idsOf]
      have hc : c ∉ idsOf bs := fun hin => h (by
        rw [hids]; exact List.mem_append_right _ hin)
      cases b with
      | plain r co =>
          rw [show blocksMsgs (HBlock.plain r co :: bs)
              = { role := some r, content := some co } :: blocksMsgs bs from by
            simp [blocksMsgs, blockMsgs]]
          rw [List.countP_cons, ih hc]
          rfl
      | pair n c' args out =>
          have hcc : c' ≠ c := fun hcc => h (by
            rw [hids]; exact List.mem_append_left _ (by simp [blockIds, hcc]))
          rw [show blocksMsgs (HBlock.pair n c' args out :: bs)
              = fcMsg ⟨n, c', args⟩ :: outMsg c' out :: blocksMsgs bs from by
            simp [blocksMsgs, blockMsgs]]
          rw [List.countP_cons, List.countP_cons, ih hc]
          simp [isOutMsg, fcMsg, outMsg, some_beq_some, hcc]

/-- Every tool-call message of a block list carries one of the list's ids. -/
theorem isCall_blocksMsgs_id {bs : List HBlock} {m : Msg}
    (hm : m ∈ blocksMsgs bs) (hcall : isCallMsg m = true) :
    ∃ c ∈ idsOf bs, m.call_id = some c := by
  induction bs with
  | nil => simp [blocksMsgs] at hm
  | cons b bs ih =>
      have hids : idsOf (b :: bs) = blockIds b ++ idsOf bs := by simp [idsOf]
      rw [show blocksMsgs (b :: bs) = blockMsgs b ++ blocksMsgs bs from by
        simp [blocksMsgs]] at hm
      rcases List.mem_append.mp hm with hm | hm
      · cases b with
        | plain r co =>
            rcases List.mem_singleton.mp hm with hm
            subst hm
            simp [isCallMsg] at hcall
        | pair n c args out =>
            rcases List.mem_cons.mp hm with hm | hm
            · subst hm
              exact ⟨c, by rw [hids]; exact List.mem_append_left _ (by simp [blockIds]), rfl⟩
            rcases List.mem_singleton.mp hm with hm
            · subst hm
              simp [isCallMsg, outMsg] at hcall
      · obtain ⟨c, hcmem, hcid⟩ := ih hm
        exact ⟨c, by rw [hids]; exact List.mem_append_right _ hcmem, hcid⟩

/-- Any block-shaped history with pairwise-distinct ids satisfies the pairing
invariant. -/
theorem pairedHistory_blocksMsgs : ∀ (bs : List HBlock), (idsOf bs).Nodup →
    PairedHistory (blocksMsgs bs) := by
  intro bs
  induction bs with
  | nil =>
      intro _
      constructor
      · intro pre m post h
        rw [show blocksMsgs [] = [] from rfl] at h
        cases pre <;> simp at h
      · intro pre m post h
        rw [show blocksMsgs [] = [] from rfl] at h
        cases pre <;> simp at h
  | cons b bs ih =>
      intro hnd
      have hids : idsOf (b :: bs) = blockIds b ++ idsOf bs := by simp [idsOf]
      have hnd' : (idsOf bs).Nodup := by
        rw [hids] at hnd
        exact (List.nodup_append.mp hnd).2.1
      obtain ⟨ih1, ih2⟩ := ih hnd'
      cases b with
      | plain r co =>
          have hrw : blocksMsgs (HBlock.plain r co :: bs)
              = { role := some r, content := some co } :: blocksMsgs bs := by
            simp [blocksMsgs, blockMsgs]
          rw [hrw]
          constructor
          · intro pre m post h hcall
            rcases cons_eq_append_cons h with ⟨_, hm, _⟩ | ⟨pre', hpre, h'⟩
            · rw [hm] at hcall
              simp [isCallMsg] at hcall
            · obtain ⟨hadj, hcount⟩ := ih1 pre' m post h' hcall
              refine ⟨hadj, ?_⟩
              rw [List.countP_cons, hcount]
              rfl
          · intro pre m post h hout
            rcases cons_eq_append_cons h with ⟨_, hm, _⟩ | ⟨pre', hpre, h'⟩
            · rw [hm] at hout
              simp [isOutMsg] at hout
            · obtain ⟨cc, hmem, hcc⟩ := ih2 pre' m post h' hout
              exact ⟨cc, by rw [hpre]; exact List.mem_cons_of_mem _ hmem, hcc⟩
      | pair n c args out =>
          have hfresh : c ∉ idsOf bs := by
            rw [hids] at hnd
            have := List.nodup_append.mp hnd
            intro hcin
            exact this.2.2 (by simp [blockIds]) hcin
          have hrw : blocksMsgs (HBlock.pair n c args out :: bs)
              = fcMsg ⟨n, c, args⟩ :: outMsg c out :: blocksMsgs bs := by
            simp [blocksMsgs, blockMsgs]
          rw [hrw]
          constructor
          · intro pre m post h hcall
            rcases cons_eq_append_cons h with ⟨hpre, hm, hpost⟩ | ⟨pre₂, hpre, h'⟩
            · subst hm
              refine ⟨⟨outMsg c out, blocksMsgs bs, hpost, rfl, rfl⟩, ?_⟩
              rw [List.countP_cons, List.countP_cons]
              rw [show (fcMsg ⟨n, c, args⟩).call_id = some c from rfl]
              rw [countP_blocksMsgs_out bs c hfresh]
              simp [isOutMsg, fcMsg, outMsg, some_beq_some]
            · rcases cons_eq_append_cons h' with ⟨hpre₂, hm, hpost⟩ | ⟨pre₃, hpre₂, h''⟩
              · rw [hm] at hcall
                simp [isCallMsg, outMsg] at hcall
              · obtain ⟨hadj, hcount⟩ := ih1 pre₃ m post h'' hcall
                refine ⟨hadj, ?_⟩
                have hmmem : m ∈ blocksMsgs bs := by
                  rw [h'']
                  exact List.mem_append_right _ (by simp)
                obtain ⟨c', hc'mem, hc'⟩ := isCall_blocksMsgs_id hmmem hcall
                have hne : c ≠ c' := fun hcc => hfresh (hcc ▸ hc'mem)
                rw [List.countP_cons, List.countP_cons, hcount]
                simp [isOutMsg, fcMsg, outMsg, hc', some_beq_some, hne]
          · intro pre m post h hout
            rcases cons_eq_append_cons h with ⟨hpre, hm, hpost⟩ | ⟨pre₂, hpre, h'⟩
            · rw [hm] at hout
              simp [isOutMsg, fcMsg] at hout
            · rcases cons_eq_append_cons h' with ⟨hpre₂, hm, hpost⟩ | ⟨pre₃, hpre₂, h''⟩
              · subst hm
                refine ⟨fcMsg ⟨n, c, args⟩, ?_, rfl, rfl⟩
                rw [hpre, hpre₂]
                simp
              · obtain ⟨cc, hmem, hcc⟩ := ih2 pre₃ m post h'' hout
                refine ⟨cc, ?_, hcc⟩
                rw [hpre, hpre₂]
                exact List.mem_cons_of_mem _ (List.mem_cons_of_mem _ hmem)

/-! ## Concrete artifacts shared by witnesses and counterexamples -/

/-- An initial system message as assembled by `sendMessage`. -/
def sysMsg0 : Msg :=
  { role := some "system", content := some (Json.str "You are a helpful Magic: The Gathering search agent.") }

/-- A user message. -/
def userMsg0 : Msg :=
  { role := some "user", content := some (Json.str "find Stomping Ground") }

/-- The two-candidate summary of a Stomping Ground search. -/
def stompSummary : List Json :=
  [Json.obj [("set", Json.str "gpt"), ("collector_number", Json.str "107")],
   Json.obj [("set", Json.str "rav"), ("collector_number", Json.str "165")]]

/-- A concrete loop environment: arguments always parse, every scryfall call
yields the two Stomping Ground printings, other tools output `"done"`. -/
def envA : LoopEnv :=
  { parseOk := fun _ => true,
    scry := fun _ => ⟨stompSummary, Json.arr stompSummary⟩,
    otherOutput := fun _ => "done" }

/-! ## Claim C1 — pairing invariant of the orchestration loop -/

/-- C1 (counterexample): a turn whose batch requests `local_singlecard` — a
tool name with no registered executor — produces a history holding that
request with no matching result: the pairing invariant fails exactly in the
case the claim singles out as still holding. -/
theorem c1_pairing_counterexample :
    runBatch envA ⟨[sysMsg0, userMsg0], none, none⟩
        [⟨"local_singlecard", "call_1", some "\x7b\"set_code\":\"gpt\",\"collector_number\":\"107\"\x7d"⟩]
      = .ok ([sysMsg0, userMsg0, fcMsg ⟨"local_singlecard", "call_1",
          some "\x7b\"set_code\":\"gpt\",\"collector_number\":\"107\"\x7d"⟩], false) ∧
    ¬ PairedHistory [sysMsg0, userMsg0, fcMsg ⟨"local_singlecard", "call_1",
        some "\x7b\"set_code\":\"gpt\",\"collector_number\":\"107\"\x7d"⟩] := by
  constructor
  · rfl
  · rintro ⟨h1, _⟩
    obtain ⟨⟨o, post', hpost, _, _⟩, _⟩ :=
      h1 [sysMsg0, userMsg0] (fcMsg ⟨"local_singlecard", "call_1",
        some "\x7b\"set_code\":\"gpt\",\"collector_number\":\"107\"\x7d"⟩) [] rfl rfl
    exact List.noConfusion hpost

/-- C1 (amended): for every batch whose requested tool names all resolve to
registered executors (and whose argument strings parse), the loop maps a
block-shaped history with fresh, pairwise-distinct correlation ids to a
history satisfying the pairing invariant: every request has exactly one
adjacent matching result and no result lacks a preceding request.  (An
unregistered name instead leaves its request without any result, as the
counterexample shows.) -/
theorem c1_pairing_amended (env : LoopEnv) (bs : List HBlock) (fcs : List FC)
    (lt : Option String) (ls : Option ScryResult)
    (hnd : (idsOf bs ++ fcs.map (fun f => f.call_id)).Nodup)
    (hall : ∀ fc ∈ fcs, hasExecutor fc.name = true ∧ argsOk env fc = true) :
    ∃ msgs exit, runBatch env ⟨blocksMsgs bs, lt, ls⟩ fcs = .ok (msgs, exit) ∧
      PairedHistory msgs := by
  obtain ⟨bs', st', hbatch, hmsgs, hnd'⟩ := execBatch_blocks env fcs bs lt ls hnd hall
  unfold runBatch
  rw [hbatch]
  rcases hscry : st'.lastScry with _ | r
  · refine ⟨st'.msgs, false, ?_, hmsgs ▸ pairedHistory_blocksMsgs bs' hnd'⟩
    simp only [hscry]
  · by_cases hcond : (st'.lastToolName == some "scryfall_search"
        && decide (1 < r.summary.length)) = true
    · refine ⟨st'.msgs ++ [assistantMsg r.details], true, ?_, ?_⟩
      · simp [hscry, hcond]
      · have heq : st'.msgs ++ [assistantMsg r.details]
            = blocksMsgs (bs' ++ [HBlock.plain "assistant" r.details]) := by
          rw [blocksMsgs_append, hmsgs]
          rfl
        rw [heq]
        refine pairedHistory_blocksMsgs _ ?_
        rw [idsOf_append]
        simpa [idsOf, blockIds] using hnd'
    · refine ⟨st'.msgs, false, ?_, hmsgs ▸ pairedHistory_blocksMsgs bs' hnd'⟩
      simp [hscry, hcond]

/-- Witness for `c1_pairing_amended` at a concrete input. -/
theorem c1_pairing_amended_witness :
    ((idsOf [HBlock.plain "user" (Json.str "find Stomping Ground")]
        ++ ([⟨"scryfall_search", "call_2", none⟩, ⟨"tracker_getAllCards", "call_3", none⟩]
            : List FC).map (fun f => f.call_id)).Nodup ∧
      (∀ fc ∈ ([⟨"scryfall_search", "call_2", none⟩, ⟨"tracker_getAllCards", "call_3", none⟩]
            : List FC), hasExecutor fc.name = true ∧ argsOk envA fc = true)) ∧
    (∃ msgs exit, runBatch envA
        ⟨blocksMsgs [HBlock.plain "user" (Json.str "find Stomping Ground")], none, none⟩
        [⟨"scryfall_search", "call_2", none⟩, ⟨"tracker_getAllCards", "call_3", none⟩]
      = .ok (msgs, exit) ∧ PairedHistory msgs) :=
  ⟨⟨by decide, by decide⟩,
    c1_pairing_amended envA [HBlock.plain "user" (Json.str "find Stomping Ground")]
      [⟨"scryfall_search", "call_2", none⟩, ⟨"tracker_getAllCards", "call_3", none⟩]
      none none (by decide) (by decide)⟩

/-! ## Claim C5 — disambiguation early exit -/

/-- C5 (counterexample): the early-exit check reads the *last requested* tool
name, not the last executed one.  In a batch `[scryfall_search, bogus_tool]`
the only tool executed is the search and it yields two candidates, yet the
loop still issues a follow-up model call (`exit = false`). -/
theorem c5_early_exit_counterexample :
    executedCalls [⟨"scryfall_search", "call_a", none⟩, ⟨"bogus_tool", "call_b", none⟩]
      = [⟨"scryfall_search", "call_a", none⟩] ∧
    1 < (envA.scry "call_a").summary.length ∧
    Except.map Prod.snd (runBatch envA ⟨[userMsg0], none, none⟩
        [⟨"scryfall_search", "call_a", none⟩, ⟨"bogus_tool", "call_b", none⟩])
      = .ok false := by
  refine ⟨rfl, by decide, rfl⟩

/-- C5 (amended): when the *last requested* tool call of the batch is the
card-metadata search and its result summary has more than one candidate, the
loop ends the turn without a further model call and appends the candidate
details as the assistant answer. -/
theorem c5_early_exit_amended (env : LoopEnv) (st : BatchState) (fcs : List FC) (fc : FC)
    (hargs : ∀ f ∈ fcs, argsOk env f = true)
    (hlast : fcs.getLast? = some fc)
    (hname : fc.name = "scryfall_search")
    (hmulti : 1 < (env.scry fc.call_id).summary.length) :
    ∃ st', execBatch env st fcs = .ok st' ∧
      runBatch env st fcs = .ok (st'.msgs ++ [assistantMsg (env.scry fc.call_id).details], true) := by
  obtain ⟨st', h1, h2, h3⟩ := execBatch_lastScry env fcs st fc hargs hlast hname
  refine ⟨st', h1, ?_⟩
  unfold runBatch
  rw [h1]
  simp [h3, h2, hname, hmulti]

/-- Witness for `c5_early_exit_amended` at a concrete input. -/
theorem c5_early_exit_amended_witness :
    ((∀ f ∈ ([⟨"scryfall_search", "call_a", none⟩] : List FC), argsOk envA f = true) ∧
      ([⟨"scryfall_search", "call_a", none⟩] : List FC).getLast?
        = some ⟨"scryfall_search", "call_a", none⟩ ∧
      (⟨"scryfall_search", "call_a", none⟩ : FC).name = "scryfall_search" ∧
      1 < (envA.scry "call_a").summary.length) ∧
    (∃ st', execBatch envA ⟨[userMsg0], none, none⟩ [⟨"scryfall_search", "call_a", none⟩]
        = .ok st' ∧
      runBatch envA ⟨[userMsg0], none, none⟩ [⟨"scryfall_search", "call_a", none⟩]
        = .ok (st'.msgs ++ [assistantMsg (envA.scry "call_a").details], true)) :=
  ⟨⟨by decide, rfl, rfl, by decide⟩,
    c5_early_exit_amended envA ⟨[userMsg0], none, none⟩ [⟨"scryfall_search", "call_a", none⟩]
      ⟨"scryfall_search", "call_a", none⟩ (by decide) rfl rfl (by decide)⟩

/-! ## Claim C6 — superseding of older scryfall pairs -/

/-- Is this block a card-metadata-search call/result pair? -/
def isScryPairB : HBlock → Bool
  | .pair n _ _ _ => n == "scryfall_search"
  | .plain _ _ => false

theorem keepBlock_of_not_scry {b : HBlock} {cid : String} (h : isScryPairB b = false) :
    keepBlock "scryfall_search" cid b = true := by
  cases b with
  | plain r c => rfl
  | pair n c a o =>
      simp only [isScryPairB] at h
      simp [keepBlock, h]

/-- C6 (confirmed): executing a new card-metadata search over a working
history that carries an earlier scryfall call/result pair leaves exactly the
new pair (call immediately followed by its result, at the end) and removes
the earlier pair entirely: no message with the old correlation id survives,
so there is neither a dangling request nor a dangling result. -/
theorem c6_scryfall_superseding (env : LoopEnv) (A B : List HBlock)
    (c1 cid : String) (a1 : Option String) (o1 : String) (args : Option String)
    (lt : Option String) (ls : Option ScryResult)
    (hnd : (idsOf (A ++ [HBlock.pair "scryfall_search" c1 a1 o1] ++ B)).Nodup)
    (hfresh : cid ∉ idsOf (A ++ [HBlock.pair "scryfall_search" c1 a1 o1] ++ B))
    (hother : ∀ b ∈ A ++ B, isScryPairB b = false)
    (hargs : argsOk env ⟨"scryfall_search", cid, args⟩ = true) :
    ∃ st', execStep env
        ⟨blocksMsgs (A ++ [HBlock.pair "scryfall_search" c1 a1 o1] ++ B), lt, ls⟩
        ⟨"scryfall_search", cid, args⟩ = .ok st' ∧
      st'.msgs = blocksMsgs (A ++ B)
        ++ [fcMsg ⟨"scryfall_search", cid, args⟩,
            outMsg cid (Json.stringify (Json.arr (env.scry cid).summary))] ∧
      ∀ m ∈ st'.msgs, m.call_id ≠ some c1 := by
  have hexec : hasExecutor "scryfall_search" = true := by decide
  have hids : idsOf (A ++ [HBlock.pair "scryfall_search" c1 a1 o1] ++ B)
      = idsOf A ++ [c1] ++ idsOf B := by
    simp [idsOf_append, idsOf, blockIds]
  have hc1mem : c1 ∈ idsOf (A ++ [HBlock.pair "scryfall_search" c1 a1 o1] ++ B) := by
    rw [hids]
    simp
  have hc1cid : c1 ≠ cid := fun h => hfresh (h ▸ hc1mem)
  have hstep := execStep_executed env (A ++ [HBlock.pair "scryfall_search" c1 a1 o1] ++ B)
    lt ls ⟨"scryfall_search", cid, args⟩ hnd hfresh hargs hexec
  have hfilter : (A ++ [HBlock.pair "scryfall_search" c1 a1 o1] ++ B).filter
      (keepBlock "scryfall_search" cid) = A ++ B := by
    rw [List.filter_append, List.filter_append]
    rw [List.filter_eq_self.mpr (fun b hb => keepBlock_of_not_scry
      (hother b (List.mem_append_left _ hb)))]
    rw [List.filter_eq_self.mpr (fun b hb => keepBlock_of_not_scry
      (hother b (List.mem_append_right _ hb)))]
    rw [show List.filter (keepBlock "scryfall_search" cid)
        [HBlock.pair "scryfall_search" c1 a1 o1] = [] from by
      simp [keepBlock, hc1cid]]
    simp
  refine ⟨_, hstep, ?_, ?_⟩
  · dsimp only
    rw [hfilter, blocksMsgs_append]
    rw [show blocksMsgs [HBlock.pair "scryfall_search" cid args
        (stepOutput env ⟨"scryfall_search", cid, args⟩)]
      = [fcMsg ⟨"scryfall_search", cid, args⟩,
          outMsg cid (stepOutput env ⟨"scryfall_search", cid, args⟩)] from by
      simp [blocksMsgs, blockMsgs]]
    rw [show stepOutput env ⟨"scryfall_search", cid, args⟩
      = Json.stringify (Json.arr (env.scry cid).summary) from rfl]
  · intro m hm
    dsimp only at hm
    rw [hfilter, blocksMsgs_append] at hm
    have hc1out : c1 ∉ idsOf (A ++ B) := by
      rw [hids] at hnd
      rw [idsOf_append]
      have h1 := List.nodup_append.mp hnd
      have h2 := List.nodup_append.mp h1.1
      intro hcin
      rcases List.mem_append.mp hcin with hin | hin
      · exact h2.2.2 hin (by simp)
      · exact h1.2.2 (by simp) hin
    rcases List.mem_append.mp hm with hm | hm
    · rcases mem_blocksMsgs_call_id hm with hn | ⟨c', hc', hcid⟩
      · rw [hn]
        exact fun h => Option.noConfusion h
      · rw [hcid]
        intro h
        exact hc1out ((Option.some.inj h) ▸ hc')
    · rcases List.mem_cons.mp hm with hm | hm
      · subst hm
        simp only [fcMsg, ne_eq, Option.some.injEq]
        exact fun h => hc1cid h.symm
      rcases List.mem_singleton.mp hm with hm
      subst hm
      simp only [outMsg, ne_eq, Option.some.injEq]
      exact fun h => hc1cid h.symm

/-- Witness for `c6_scryfall_superseding` at a concrete input. -/
theorem c6_scryfall_superseding_witness :
    ((idsOf [HBlock.plain "user" (Json.str "find Stomping Ground"),
        HBlock.pair "scryfall_search" "call_x" none "[]"]).Nodup ∧
      "call_y" ∉ idsOf [HBlock.plain "user" (Json.str "find Stomping Ground"),
        HBlock.pair "scryfall_search" "call_x" none "[]"] ∧
      (∀ b ∈ ([HBlock.plain "user" (Json.str "find Stomping Ground")] ++ ([] : List HBlock)),
        isScryPairB b = false) ∧
      argsOk envA ⟨"scryfall_search", "call_y", none⟩ = true) ∧
    (∃ st', execStep envA
        ⟨blocksMsgs ([HBlock.plain "user" (Json.str "find Stomping Ground")]
          ++ [HBlock.pair "scryfall_search" "call_x" none "[]"] ++ []), none, none⟩
        ⟨"scryfall_search", "call_y", none⟩ = .ok st' ∧
      st'.msgs = blocksMsgs ([HBlock.plain "user" (Json.str "find Stomping Ground")] ++ [])
        ++ [fcMsg ⟨"scryfall_search", "call_y", none⟩,
            outMsg "call_y" (Json.stringify (Json.arr (envA.scry "call_y").summary))] ∧
      ∀ m ∈ st'.msgs, m.call_id ≠ some "call_x") :=
  ⟨⟨by decide, by decide, by decide, by decide⟩,
    c6_scryfall_superseding envA [HBlock.plain "user" (Json.str "find Stomping Ground")] []
      "call_x" "call_y" none "[]" none none none
      (by decide) (by decide) (by decide) (by decide)⟩

/-! ## Claim C7 — dispatch robustness -/

/-- A batch whose argument strings all parse never aborts. -/
theorem execBatch_all_ok (env : LoopEnv) :
    ∀ (fcs : List FC) (st : BatchState), (∀ f ∈ fcs, argsOk env f = true) →
    ∃ st', execBatch env st fcs = .ok st' := by
  intro fcs
  induction fcs with
  | nil => exact fun st _ => ⟨st, rfl⟩
  | cons f rest ih =>
      intro st h
      obtain ⟨st1, h1⟩ := execStep_ok env st f (h f (by simp))
      obtain ⟨st2, h2⟩ := ih st1 (fun g hg => h g (by simp [hg]))
      refine ⟨st2, ?_⟩
      rw [execBatch, h1]
      exact h2

/-- An executed call always appends its result as the new last message. -/
theorem execStep_executed_msgs (env : LoopEnv) (st : BatchState) (f : FC)
    (hargs : argsOk env f = true) (hexec : hasExecutor f.name = true) :
    ∃ st', execStep env st f = .ok st' ∧
      st'.msgs.getLast? = some (outMsg f.call_id (stepOutput env f)) := by
  unfold execStep
  rw [hargs, hexec]
  simp only [Bool.not_true, Bool.false_eq_true, if_false]
  by_cases h : (f.name == "scryfall_search") = true
  · rw [if_pos h]
    refine ⟨_, rfl, ?_⟩
    simp [stepOutput, h, List.getLast?_concat]
  · rw [if_neg h]
    refine ⟨_, rfl, ?_⟩
    simp [stepOutput, h, List.getLast?_concat]

/-- C7 (confirmed): a tool call with no registered executor does not abort
the turn — it only leaves its pushed request behind and the batch continues
exactly as if started on the remaining calls; the batch still completes, and
every remaining call with a registered executor still executes with its
result appended to the history. -/
theorem c7_dispatch_robustness (env : LoopEnv) (st : BatchState) (bad : FC) (rest : List FC)
    (hnoexec : hasExecutor bad.name = false)
    (hbadargs : argsOk env bad = true)
    (hrest : ∀ f ∈ rest, argsOk env f = true) :
    execBatch env st (bad :: rest)
      = execBatch env { st with
          msgs := st.msgs ++ [fcMsg bad],
          lastToolName := some bad.name } rest
    ∧ (∃ stend, execBatch env st (bad :: rest) = .ok stend)
    ∧ (∀ pre f post, rest = pre ++ f :: post → hasExecutor f.name = true →
        ∃ stmid stafter, execBatch env { st with
            msgs := st.msgs ++ [fcMsg bad],
            lastToolName := some bad.name } pre = .ok stmid ∧
          execStep env stmid f = .ok stafter ∧
          stafter.msgs.getLast? = some (outMsg f.call_id (stepOutput env f))) := by
  have hskip := execStep_skip env st bad hbadargs hnoexec
  have h1 : execBatch env st (bad :: rest)
      = execBatch env { st with
          msgs := st.msgs ++ [fcMsg bad],
          lastToolName := some bad.name } rest := by
    rw [execBatch, hskip]
  refine ⟨h1, ?_, ?_⟩
  · rw [h1]
    exact execBatch_all_ok env rest _ hrest
  · intro pre f post hsplit hexec
    obtain ⟨stmid, hmid⟩ := execBatch_all_ok env pre _
      (fun g hg => hrest g (by rw [hsplit]; exact List.mem_append_left _ hg))
    obtain ⟨stafter, hstep, hlast⟩ := execStep_executed_msgs env stmid f
      (hrest f (by rw [hsplit]; simp)) hexec
    exact ⟨stmid, stafter, hmid, hstep, hlast⟩

/-- Witness for `c7_dispatch_robustness` at a concrete input. -/
theorem c7_dispatch_robustness_witness :
    (hasExecutor "local_singlecard" = false ∧
      argsOk envA ⟨"local_singlecard", "call_1", none⟩ = true ∧
      (∀ f ∈ ([⟨"tracker_createCard", "call_2", none⟩] : List FC), argsOk envA f = true)) ∧
    (execBatch envA ⟨[userMsg0], none, none⟩
        [⟨"local_singlecard", "call_1", none⟩, ⟨"tracker_createCard", "call_2", none⟩]
      = execBatch envA ⟨[userMsg0, fcMsg ⟨"local_singlecard", "call_1", none⟩],
          some "local_singlecard", none⟩ [⟨"tracker_createCard", "call_2", none⟩]
    ∧ (∃ stend, execBatch envA ⟨[userMsg0], none, none⟩
        [⟨"local_singlecard", "call_1", none⟩, ⟨"tracker_createCard", "call_2", none⟩]
        = .ok stend)
    ∧ (∀ pre f post,
        ([⟨"tracker_createCard", "call_2", none⟩] : List FC) = pre ++ f :: post →
        hasExecutor f.name = true →
        ∃ stmid stafter, execBatch envA ⟨[userMsg0, fcMsg ⟨"local_singlecard", "call_1", none⟩],
            some "local_singlecard", none⟩ pre = .ok stmid ∧
          execStep envA stmid f = .ok stafter ∧
          stafter.msgs.getLast? = some (outMsg f.call_id (stepOutput envA f)))) :=
  ⟨⟨by decide, by decide, by decide⟩,
    c7_dispatch_robustness envA ⟨[userMsg0], none, none⟩
      ⟨"local_singlecard", "call_1", none⟩ [⟨"tracker_createCard", "call_2", none⟩]
      (by decide) (by decide) (by decide)⟩

/-! ## Claim C4 — identification-phase tool catalog -/

/-- C4 (code bug): for step 1 the tool catalog builder does not return a list
at all — gptAgent.js imports `singlecardTool` from tools.js, but tools.js
keeps that descriptor commented out and does not export it, so the binding is
`undefined` and the spread `[...scryfallTool, ...singlecardTool,
...vectorStoreTool]` throws a `TypeError` on every identification-phase
request.  gptAgent.js itself still instructs the model to call
`local_singlecard` (system prompt, step-switch at line 286), so the claim
matches the code's documented intent and the code is the slip. -/
theorem c4_identify_tools_bug (env : ToolsEnv) :
    getToolsForStep env 1 = .error "TypeError: singlecardTool is not iterable" := rfl

/-! ## Claim C8 — schema-retrieval failure degrades to an empty tool set -/

/-- C8 (confirmed): when retrieval (or translation) of the backend's Swagger
schema fails, `fetchTrackerFunctions` returns the empty tool list — its whole
body is wrapped in `try { … } catch { return [] }` — and the step-2 catalog
builder consequently returns an empty dynamic set instead of failing the
request. -/
theorem c8_schema_failure_empty (e : String) :
    fetchTrackerFunctions ⟨.error e⟩ = [] ∧
    getToolsForStep ⟨.error e⟩ 2 = .ok (some []) :=
  ⟨rfl, rfl⟩

/-! ## Claim C2 — dispatcher error containment -/

/-- Is this value shaped `{status: "success" | "error", …}`? -/
def isStatusShaped : Json → Bool
  | .obj (("status", Json.str s) :: _) => s == "success" || s == "error"
  | _ => false

theorem isStatusShaped_trackerError (e : String) :
    isStatusShaped (trackerError e) = true := rfl

theorem isStatusShaped_trackerSuccess (b : Option Json) :
    isStatusShaped (trackerSuccess b) = true := by
  cases b <;> rfl

theorem trackerResult_fst_shape (tEnv : TrackerEnv) (oid : String) (args : Json)
    (st : CredState) (cnt : Counters) :
    isStatusShaped ((match trackerTryBody tEnv oid args with
      | .ok body => (trackerSuccess body, st, cnt)
      | .error e => (trackerError e, st, cnt) : Json × CredState × Counters)).1 = true := by
  rcases trackerTryBody tEnv oid args with e | b
  · exact isStatusShaped_trackerError e
  · exact isStatusShaped_trackerSuccess b

/-- Whatever happens inside its `try` block, `tracker_dynamic` returns a
structured `{status, message}` value — the `catch` converts every thrown
error. -/
theorem tracker_dynamic_shape (tEnv : TrackerEnv) (st : CredState) (cnt : Counters)
    (name : String) (args : Json) (bt : Option Json) :
    ∃ r st' cnt', tracker_dynamic tEnv st cnt name args bt = (r, st', cnt') ∧
      isStatusShaped r = true := by
  unfold tracker_dynamic
  repeat' split
  all_goals
    first
      | exact ⟨_, _, _, rfl, rfl⟩
      | exact ⟨_, _, _, rfl, isStatusShaped_trackerSuccess _⟩
      | exact ⟨_, _, _, rfl, trackerResult_fst_shape tEnv _ args _ _⟩

theorem exceptOkBind {ε α β : Type} (a : α) (k : α → Except ε β) :
    ((Except.ok a : Except ε α) >>= k) = k a := rfl

theorem exceptErrorBind {ε α β : Type} (e : ε) (k : α → Except ε β) :
    ((Except.error e : Except ε α) >>= k) = .error e := rfl

/-- A fetch (or JSON-decode) failure inside `scryfallSearch` propagates: the
function has no `try`/`catch`. -/
theorem scryfallSearch_fetch_error (env : ScryEnv) (args : Json)
    (ps : List (String × String)) (e : String)
    (hp : scryfallParams args = .ok ps) (hf : env.fetchJson ps = .error e) :
    scryfallSearch env args = .error e := by
  unfold scryfallSearch
  rw [hp, exceptOkBind]
  rw [hf, exceptErrorBind]

/-- The scryfall environment whose fetch always rejects. -/
def scryEnvFail : ScryEnv := ⟨fun _ => .error "TypeError: fetch failed"⟩

/-- A healthy credential environment using the local `JWT_CREDENTIALS`
variable. -/
def credEnvJwt : CredEnv :=
  { jwt_credentials := some "user:pass",
    secretOutcome := .ok (Json.obj [("username", Json.str "user"),
      ("password", Json.str "pass")]),
    tokenFetch := .ok (Json.obj [("token", Json.str "tok123")]) }

/-- A healthy tracker environment with one backend operation. -/
def trackerEnvOk : TrackerEnv :=
  { cred := credEnvJwt,
    swaggerSpec := .ok ⟨[("/cards", [("get", { operationId := some "getAllCards" })])]⟩,
    executeOutcome := fun _ _ _ => .ok (some (Json.obj [("count", Json.num 3)])) }

/-- C2 (counterexample): the card-metadata search executor catches nothing —
with a failing fetch, the dispatcher surfaces a raw exception
(`ExecOutcome.exn`), not a JSON result and not a `{status:"error"}` value. -/
theorem c2_dispatcher_counterexample :
    dispatchTool scryEnvFail trackerEnvOk ⟨none⟩ ⟨0, 0⟩ "scryfall_search"
        (Json.obj [("name", Json.str "Stomping Ground")])
      = some (.exn "TypeError: fetch failed", ⟨none⟩, ⟨0, 0⟩) := rfl

/-- C2 (amended): every backend (`tracker_*`) dispatch returns a structured
`{status, message}` result — no exception escapes its `try`/`catch` — but the
card-metadata search executor performs no catching at all: a fetch or decode
failure propagates past the dispatcher boundary as a raw exception. -/
theorem c2_dispatcher_amended :
    (∀ (sEnv : ScryEnv) (tEnv : TrackerEnv) (st : CredState) (cnt : Counters)
        (name : String) (args : Json), jsStartsWith name "tracker_" = true →
      ∃ v st' cnt', dispatchTool sEnv tEnv st cnt name args = some (.ok v, st', cnt') ∧
        isStatusShaped v = true) ∧
    (∀ (sEnv : ScryEnv) (tEnv : TrackerEnv) (st : CredState) (cnt : Counters)
        (args : Json) (ps : List (String × String)) (e : String),
      scryfallParams args = .ok ps → sEnv.fetchJson ps = .error e →
      dispatchTool sEnv tEnv st cnt "scryfall_search" args = some (.exn e, st, cnt)) := by
  constructor
  · intro sEnv tEnv st cnt name args hpre
    obtain ⟨r, st', cnt', heq, hshape⟩ := tracker_dynamic_shape tEnv st cnt name args none
    refine ⟨r, st', cnt', ?_, hshape⟩
    unfold dispatchTool
    rw [if_pos hpre, heq]
  · intro sEnv tEnv st cnt args ps e hp hf
    unfold dispatchTool
    rw [if_neg (by decide), if_pos (by decide)]
    unfold scryfall_search_exec
    rw [scryfallSearch_fetch_error sEnv args ps e hp hf]

/-- Witness for `c2_dispatcher_amended` at concrete inputs. -/
theorem c2_dispatcher_amended_witness :
    (jsStartsWith "tracker_getAllCards" "tracker_" = true ∧
      scryfallParams (Json.obj []) = .ok [("q", "game:paper unique:prints")] ∧
      scryEnvFail.fetchJson [("q", "game:paper unique:prints")]
        = .error "TypeError: fetch failed") ∧
    (∃ v st' cnt', dispatchTool scryEnvFail trackerEnvOk ⟨none⟩ ⟨0, 0⟩
        "tracker_getAllCards" (Json.obj []) = some (.ok v, st', cnt') ∧
      isStatusShaped v = true) ∧
    dispatchTool scryEnvFail trackerEnvOk ⟨none⟩ ⟨0, 0⟩ "scryfall_search" (Json.obj [])
      = some (.exn "TypeError: fetch failed", ⟨none⟩, ⟨0, 0⟩) :=
  ⟨⟨by decide, rfl, rfl⟩,
    c2_dispatcher_amended.1 scryEnvFail trackerEnvOk ⟨none⟩ ⟨0, 0⟩
      "tracker_getAllCards" (Json.obj []) (by decide),
    c2_dispatcher_amended.2 scryEnvFail trackerEnvOk ⟨none⟩ ⟨0, 0⟩ (Json.obj [])
      [("q", "game:paper unique:prints")] "TypeError: fetch failed" rfl rfl⟩

/-! ## Claim C3 — credential caching across backend invocations -/

/-- Two sequential backend tool invocations within one process lifetime: the
process starts with an empty credential cache and zero external calls, and
each invocation is dispatched exactly as `sendMessage` does it
(`executor(toolName, args)` — no bearer token argument). -/
def twoTrackerInvocations (env : TrackerEnv) (n1 n2 : String) (a1 a2 : Json) :
    Json × Json × CredState × Counters :=
  let r1 := tracker_dynamic env ⟨none⟩ ⟨0, 0⟩ n1 a1 none
  let r2 := tracker_dynamic env r1.2.1 r1.2.2 n2 a2 none
  (r1.1, r2.1, r2.2.1, r2.2.2)

/-- With no bearer token supplied, `tracker_dynamic` passes through exactly
the state and counters that `getBearerToken` produces. -/
theorem tracker_dynamic_state (env : TrackerEnv) (st : CredState) (cnt : Counters)
    (name : String) (args : Json) :
    ∃ r, tracker_dynamic env st cnt name args none
      = (r, (getBearerToken env.cred st cnt).2.1, (getBearerToken env.cred st cnt).2.2) := by
  unfold tracker_dynamic
  simp only [Option.isSome_none, Bool.false_eq_true, if_false]
  rcases hgb : getBearerToken env.cred st cnt with ⟨res, st2, cnt2⟩
  rcases res with e | t
  · exact ⟨trackerError e, rfl⟩
  · rcases trackerTryBody env (if jsStartsWith name "tracker_"
        then String.mk (name.data.drop 8) else name) args with e | b
    · exact ⟨trackerError e, rfl⟩
    · exact ⟨trackerSuccess b, rfl⟩

/-- `getBearerToken` through the `JWT_CREDENTIALS` environment variable:
no secrets-manager call, and exactly one token-endpoint exchange. -/
theorem getBearerToken_jwt (env : CredEnv) (st : CredState) (cnt : Counters)
    (s : String) (hj : env.jwt_credentials = some s) :
    ∃ res, getBearerToken env st cnt
      = (res, st, ⟨cnt.secretsFetches, cnt.tokenExchanges + 1⟩) := by
  unfold getBearerToken
  rw [hj]
  rcases htf : env.tokenFetch with e | data
  · exact ⟨.error e, rfl⟩
  · dsimp only
    rcases hgp : jsGetProp data "token" with e2 | t
    · exact ⟨.error e2, rfl⟩
    · exact ⟨.ok t, rfl⟩

/-- First `getBearerToken` through the secrets manager: one secrets fetch
(cached afterwards) and one token-endpoint exchange. -/
theorem getBearerToken_secrets_first (env : CredEnv) (st : CredState) (cnt : Counters)
    (v : Json) (hj : env.jwt_credentials = none)
    (hsec : env.secretOutcome = .ok v) (hcache : st.cachedCredentials = none) :
    ∃ res, getBearerToken env st cnt
      = (res, ⟨some v⟩, ⟨cnt.secretsFetches + 1, cnt.tokenExchanges + 1⟩) := by
  unfold getBearerToken getCredentials
  rw [hj, hcache, hsec]
  rcases htf : env.tokenFetch with e | data
  · exact ⟨.error e, rfl⟩
  · dsimp only
    rcases hgp : jsGetProp data "token" with e2 | t
    · exact ⟨.error e2, rfl⟩
    · exact ⟨.ok t, rfl⟩

/-- A later `getBearerToken` with a warm credential cache: no secrets fetch,
but still one token-endpoint exchange. -/
theorem getBearerToken_cached (env : CredEnv) (st : CredState) (cnt : Counters)
    (v : Json) (hj : env.jwt_credentials = none)
    (hcache : st.cachedCredentials = some v) :
    ∃ res, getBearerToken env st cnt
      = (res, st, ⟨cnt.secretsFetches, cnt.tokenExchanges + 1⟩) := by
  unfold getBearerToken getCredentials
  rw [hj, hcache]
  rcases htf : env.tokenFetch with e | data
  · exact ⟨.error e, rfl⟩
  · dsimp only
    rcases hgp : jsGetProp data "token" with e2 | t
    · exact ⟨.error e2, rfl⟩
    · exact ⟨.ok t, rfl⟩

/-- C3 (counterexample): two sequential backend invocations issue **two**
bearer-token exchanges against the backend's token endpoint — `sendMessage`
never passes a bearer token, and `getBearerToken` fetches `/gettoken` on
every call; only the secrets-manager credentials are cached. -/
theorem c3_token_caching_counterexample :
    ((twoTrackerInvocations trackerEnvOk "tracker_getAllCards" "tracker_getCard"
        (Json.obj []) (Json.obj [])).2.2.2).tokenExchanges = 2 ∧
    ¬ ((twoTrackerInvocations trackerEnvOk "tracker_getAllCards" "tracker_getCard"
        (Json.obj []) (Json.obj [])).2.2.2).tokenExchanges ≤ 1 := by
  constructor
  · rfl
  · intro hle
    rw [show ((twoTrackerInvocations trackerEnvOk "tracker_getAllCards" "tracker_getCard"
        (Json.obj []) (Json.obj [])).2.2.2).tokenExchanges = 2 from rfl] at hle
    omega

/-- C3 (amended): over two sequential backend invocations, the bearer-token
exchange runs exactly twice (once per invocation), while the credential
lookup behind it is cached: at most one secrets-manager fetch, provided
credentials are obtainable (environment variable or a successful secrets
read). -/
theorem c3_token_caching_amended (env : TrackerEnv) (n1 n2 : String) (a1 a2 : Json)
    (h : (∃ s, env.cred.jwt_credentials = some s) ∨
        (env.cred.jwt_credentials = none ∧ ∃ v, env.cred.secretOutcome = .ok v)) :
    ((twoTrackerInvocations env n1 n2 a1 a2).2.2.2).tokenExchanges = 2 ∧
    ((twoTrackerInvocations env n1 n2 a1 a2).2.2.2).secretsFetches ≤ 1 := by
  obtain ⟨r1, h1⟩ := tracker_dynamic_state env ⟨none⟩ ⟨0, 0⟩ n1 a1
  rcases h with ⟨s, hj⟩ | ⟨hj, v, hsec⟩
  · obtain ⟨res1, hg1⟩ := getBearerToken_jwt env.cred ⟨none⟩ ⟨0, 0⟩ s hj
    rw [hg1] at h1
    obtain ⟨r2, h2⟩ := tracker_dynamic_state env ⟨none⟩
      ⟨(⟨0, 0⟩ : Counters).secretsFetches, (⟨0, 0⟩ : Counters).tokenExchanges + 1⟩ n2 a2
    obtain ⟨res2, hg2⟩ := getBearerToken_jwt env.cred ⟨none⟩
      ⟨(⟨0, 0⟩ : Counters).secretsFetches, (⟨0, 0⟩ : Counters).tokenExchanges + 1⟩ s hj
    rw [hg2] at h2
    unfold twoTrackerInvocations
    rw [h1]
    dsimp only
    rw [h2]
    exact ⟨rfl, Nat.zero_le 1⟩
  · obtain ⟨res1, hg1⟩ := getBearerToken_secrets_first env.cred ⟨none⟩ ⟨0, 0⟩ v hj hsec rfl
    rw [hg1] at h1
    obtain ⟨r2, h2⟩ := tracker_dynamic_state env ⟨some v⟩
      ⟨(⟨0, 0⟩ : Counters).secretsFetches + 1, (⟨0, 0⟩ : Counters).tokenExchanges + 1⟩ n2 a2
    obtain ⟨res2, hg2⟩ := getBearerToken_cached env.cred ⟨some v⟩
      ⟨(⟨0, 0⟩ : Counters).secretsFetches + 1, (⟨0, 0⟩ : Counters).tokenExchanges + 1⟩ v hj rfl
    rw [hg2] at h2
    unfold twoTrackerInvocations
    rw [h1]
    dsimp only
    rw [h2]
    exact ⟨rfl, Nat.le_refl 1⟩

/-- Witness for `c3_token_caching_amended` at a concrete input. -/
theorem c3_token_caching_amended_witness :
    ((∃ s, trackerEnvOk.cred.jwt_credentials = some s) ∨
      (trackerEnvOk.cred.jwt_credentials = none ∧
        ∃ v, trackerEnvOk.cred.secretOutcome = .ok v)) ∧
    (((twoTrackerInvocations trackerEnvOk "tracker_getCard" "tracker_createCard"
        (Json.obj []) (Json.obj [])).2.2.2).tokenExchanges = 2 ∧
      ((twoTrackerInvocations trackerEnvOk "tracker_getCard" "tracker_createCard"
        (Json.obj []) (Json.obj [])).2.2.2).secretsFetches ≤ 1) :=
  ⟨Or.inl ⟨"user:pass", rfl⟩,
    c3_token_caching_amended trackerEnvOk "tracker_getCard" "tracker_createCard"
      (Json.obj []) (Json.obj []) (Or.inl ⟨"user:pass", rfl⟩)⟩

/-! ## Claim C9 — scryfall query construction -/

theorem exceptPure {ε α : Type} (a : α) : (pure a : Except ε α) = .ok a := rfl

theorem jsJoinElem_str (x : String) : jsJoinElem (Json.str x) = x := rfl

set_option maxHeartbeats 2000000 in
/-- Characterization of the query array for arguments of the declared filter
types (strings, a boolean flag, an array of color letters): each supplied
truthy filter contributes its clauses in source order, and `game:paper` /
`unique:prints` always close the list. -/
theorem scryfallQuery_typed (args : Json)
    (nameS oracleS typeS setS : Option String) (reservedOpt : Option Bool)
    (colorsOpt : Option (List String))
    (hn : destructureProp args "name" = .ok (nameS.map Json.str))
    (ho : destructureProp args "oracle_text" = .ok (oracleS.map Json.str))
    (ht : destructureProp args "type" = .ok (typeS.map Json.str))
    (hr : destructureProp args "reserved" = .ok (reservedOpt.map Json.bool))
    (hc : destructureProp args "colors"
      = .ok (colorsOpt.map (fun cs => Json.arr (cs.map Json.str))))
    (hs : destructureProp args "set" = .ok (setS.map Json.str)) :
    scryfallQuery args = .ok (
      (match nameS with
        | some n => if n != "" then ["name:\"" ++ n ++ "\""] else []
        | none => []) ++
      (match oracleS with
        | some s => if s != "" then
            ((splitWsJs s).filter (fun w => w != "")).map (fun w => "o:\"" ++ w ++ "\"")
          else []
        | none => []) ++
      (match typeS with
        | some s => if s != "" then
            ((splitWsJs s).filter (fun w => w != "")).map (fun w => "t:\"" ++ w ++ "\"")
          else []
        | none => []) ++
      (match reservedOpt with
        | some b => if b then ["is:reserved"] else []
        | none => []) ++
      (match colorsOpt with
        | some cs => if 0 < cs.length then ["c:\"" ++ String.join cs ++ "\""] else []
        | none => []) ++
      (match setS with
        | some s => if s != "" then ["set:" ++ s] else []
        | none => []) ++
      ["game:paper"] ++ ["unique:prints"]) := by
  unfold scryfallQuery
  simp only [hn, ho, ht, hr, hc, hs, exceptOkBind]
  rcases nameS with _ | n <;> rcases oracleS with _ | os <;> rcases typeS with _ | ts <;>
    rcases reservedOpt with _ | b <;> rcases colorsOpt with _ | cs <;> rcases setS with _ | ss <;>
    simp [truthy, truthyOpt, jsToString, jsSplitWs, jsLength, jsJoinElem_str, exceptOkBind,
      exceptPure, List.map_map, Function.comp_def] <;>
    (repeat' split) <;> simp

/-- The `URLSearchParams` always starts with the single space-joined `q`
parameter. -/
theorem scryfallParams_head (args : Json) (q : List String)
    (pageV orderV dirV : Option Json)
    (hq : scryfallQuery args = .ok q)
    (hpg : destructureProp args "page" = .ok pageV)
    (hor : destructureProp args "order" = .ok orderV)
    (hd : destructureProp args "dir" = .ok dirV) :
    ∃ tl, scryfallParams args = .ok (("q", String.intercalate " " q) :: tl) := by
  unfold scryfallParams
  simp only [hq, hpg, hor, hd, exceptOkBind, exceptPure]
  exact ⟨_, rfl⟩

/-- C9 (confirmed): for every combination of the declared structured filters,
the built query conjoins the supplied filters (each contributes its clause to
the single space-joined `q` parameter) and always carries the `game:paper`
(physical printings) and `unique:prints` constraints. -/
theorem c9_scryfall_query (args : Json)
    (nameS oracleS typeS setS : Option String) (reservedOpt : Option Bool)
    (colorsOpt : Option (List String)) (pageV orderV dirV : Option Json)
    (hn : destructureProp args "name" = .ok (nameS.map Json.str))
    (ho : destructureProp args "oracle_text" = .ok (oracleS.map Json.str))
    (ht : destructureProp args "type" = .ok (typeS.map Json.str))
    (hr : destructureProp args "reserved" = .ok (reservedOpt.map Json.bool))
    (hc : destructureProp args "colors"
      = .ok (colorsOpt.map (fun cs => Json.arr (cs.map Json.str))))
    (hs : destructureProp args "set" = .ok (setS.map Json.str))
    (hpg : destructureProp args "page" = .ok pageV)
    (hor : destructureProp args "order" = .ok orderV)
    (hd : destructureProp args "dir" = .ok dirV) :
    ∃ q ps, scryfallQuery args = .ok q ∧ scryfallParams args = .ok ps ∧
      ps.head? = some ("q", String.intercalate " " q) ∧
      "game:paper" ∈ q ∧ "unique:prints" ∈ q ∧
      (∀ n, nameS = some n → n ≠ "" → ("name:\"" ++ n ++ "\"") ∈ q) ∧
      (∀ s w, oracleS = some s → s ≠ "" → w ∈ (splitWsJs s).filter (fun x => x != "") →
        ("o:\"" ++ w ++ "\"") ∈ q) ∧
      (∀ s w, typeS = some s → s ≠ "" → w ∈ (splitWsJs s).filter (fun x => x != "") →
        ("t:\"" ++ w ++ "\"") ∈ q) ∧
      (reservedOpt = some true → "is:reserved" ∈ q) ∧
      (∀ cs, colorsOpt = some cs → 0 < cs.length →
        ("c:\"" ++ String.join cs ++ "\"") ∈ q) ∧
      (∀ s, setS = some s → s ≠ "" → ("set:" ++ s) ∈ q) := by
  have hq := scryfallQuery_typed args nameS oracleS typeS setS reservedOpt colorsOpt
    hn ho ht hr hc hs
  obtain ⟨tl, hps⟩ := scryfallParams_head args _ pageV orderV dirV hq hpg hor hd
  refine ⟨_, _, hq, hps, rfl, ?_, ?_, ?_, ?_, ?_, ?_, ?_, ?_⟩
  · simp [List.mem_append]
  · simp [List.mem_append]
  · intro n hns hne
    subst hns
    simp [List.mem_append, hne]
  · intro s w hss hse hw
    subst hss
    simp only [List.mem_append]
    refine Or.inl (Or.inl (Or.inl (Or.inl (Or.inl (Or.inl (Or.inr ?_))))))
    simp only [hse, bne_iff_ne, ne_eq, not_false_eq_true, if_true]
    exact List.mem_map_of_mem _ hw
  · intro s w hss hse hw
    subst hss
    simp only [List.mem_append]
    refine Or.inl (Or.inl (Or.inl (Or.inl (Or.inl (Or.inr ?_)))))
    simp only [hse, bne_iff_ne, ne_eq, not_false_eq_true, if_true]
    exact List.mem_map_of_mem _ hw
  · intro hres
    subst hres
    simp [List.mem_append]
  · intro cs hcs hlen
    subst hcs
    simp [List.mem_append, hlen]
  · intro s hss hse
    subst hss
    simp [List.mem_append, hse]

/-- Witness for `c9_scryfall_query` at a concrete input. -/
theorem c9_scryfall_query_witness :
    (destructureProp (Json.obj [("name", Json.str "Stomping Ground"),
        ("set", Json.str "gpt")]) "name" = .ok ((some "Stomping Ground").map Json.str) ∧
      destructureProp (Json.obj [("name", Json.str "Stomping Ground"),
        ("set", Json.str "gpt")]) "set" = .ok ((some "gpt").map Json.str)) ∧
    (∃ q ps, scryfallQuery (Json.obj [("name", Json.str "Stomping Ground"),
        ("set", Json.str "gpt")]) = .ok q ∧
      scryfallParams (Json.obj [("name", Json.str "Stomping Ground"),
        ("set", Json.str "gpt")]) = .ok ps ∧
      ps.head? = some ("q", String.intercalate " " q) ∧
      "game:paper" ∈ q ∧ "unique:prints" ∈ q ∧
      (∀ n, (some "Stomping Ground" : Option String) = some n → n ≠ "" →
        ("name:\"" ++ n ++ "\"") ∈ q) ∧
      (∀ s w, (none : Option String) = some s → s ≠ "" →
        w ∈ (splitWsJs s).filter (fun x => x != "") → ("o:\"" ++ w ++ "\"") ∈ q) ∧
      (∀ s w, (none : Option String) = some s → s ≠ "" →
        w ∈ (splitWsJs s).filter (fun x => x != "") → ("t:\"" ++ w ++ "\"") ∈ q) ∧
      ((none : Option Bool) = some true → "is:reserved" ∈ q) ∧
      (∀ cs, (none : Option (List String)) = some cs → 0 < cs.length →
        ("c:\"" ++ String.join cs ++ "\"") ∈ q) ∧
      (∀ s, (some "gpt" : Option String) = some s → s ≠ "" → ("set:" ++ s) ∈ q)) :=
  ⟨⟨rfl, rfl⟩,
    c9_scryfall_query (Json.obj [("name", Json.str "Stomping Ground"), ("set", Json.str "gpt")])
      (some "Stomping Ground") none none (some "gpt") none none none none none
      rfl rfl rfl rfl rfl rfl rfl rfl rfl⟩

/-! ## Claim C10 — responses without a `data` field -/

/-- A card-search response whose JSON body is `null`. -/
def scryEnvNull : ScryEnv := ⟨fun _ => .ok Json.null⟩

/-- The card-search API's "no cards found" error response body: an object
with no `data` field. -/
def scryEnvNotFound : ScryEnv :=
  ⟨fun _ => .ok (Json.obj [("object", Json.str "error"),
    ("code", Json.str "not_found"), ("status", Json.num 404)])⟩

/-- A card-search response that matched zero cards (`data: []`). -/
def scryEnvEmptyData : ScryEnv := ⟨fun _ => .ok (Json.obj [("data", Json.arr [])])⟩

/-- C10 (counterexample): a JSON body of `null` also lacks a `data` field,
yet `scryfallSearch` does not return the empty success — reading `.data` off
`null` throws, and the exception propagates out of the executor. -/
theorem c10_missing_data_counterexample :
    jsGetProp Json.null "data"
      = .error "TypeError: Cannot read properties of null (reading 'data')" ∧
    scryfall_search_exec scryEnvNull (Json.obj [])
      = .exn "TypeError: Cannot read properties of null (reading 'data')" :=
  ⟨rfl, rfl⟩

/-- C10 (amended): for every response whose JSON body is **not `null`** and
lacks a `data` field (`json.data` reads as `undefined`, e.g. the API's
"no cards found" error object), `scryfallSearch` returns
`{summary: [], details: []}` — no exception from the missing field, and the
result is literally the one produced for a search matching zero cards. -/
theorem c10_missing_data_amended (env : ScryEnv) (args body : Json)
    (ps : List (String × String))
    (hp : scryfallParams args = .ok ps)
    (hf : env.fetchJson ps = .ok body)
    (hnodata : jsGetProp body "data" = .ok none) :
    scryfallSearch env args
      = .ok (Json.obj [("summary", Json.arr []), ("details", Json.arr [])]) ∧
    scryfall_search_exec env args
      = .ok (Json.obj [("summary", Json.arr []), ("details", Json.arr [])]) ∧
    scryfallSearch scryEnvEmptyData args = scryfallSearch env args := by
  have h1 : scryfallSearch env args
      = .ok (Json.obj [("summary", Json.arr []), ("details", Json.arr [])]) := by
    unfold scryfallSearch
    simp only [hp, hf, hnodata, exceptOkBind]
    rfl
  have h2 : scryfallSearch scryEnvEmptyData args
      = .ok (Json.obj [("summary", Json.arr []), ("details", Json.arr [])]) := by
    unfold scryfallSearch
    simp only [hp, exceptOkBind]
    rfl
  refine ⟨h1, ?_, h2.trans h1.symm⟩
  unfold scryfall_search_exec
  rw [h1]

/-- Witness for `c10_missing_data_amended` at the "no cards found"
response. -/
theorem c10_missing_data_amended_witness :
    (scryfallParams (Json.obj []) = .ok [("q", "game:paper unique:prints")] ∧
      scryEnvNotFound.fetchJson [("q", "game:paper unique:prints")]
        = .ok (Json.obj [("object", Json.str "error"),
          ("code", Json.str "not_found"), ("status", Json.num 404)]) ∧
      jsGetProp (Json.obj [("object", Json.str "error"),
        ("code", Json.str "not_found"), ("status", Json.num 404)]) "data" = .ok none) ∧
    (scryfallSearch scryEnvNotFound (Json.obj [])
        = .ok (Json.obj [("summary", Json.arr []), ("details", Json.arr [])]) ∧
      scryfall_search_exec scryEnvNotFound (Json.obj [])
        = .ok (Json.obj [("summary", Json.arr []), ("details", Json.arr [])]) ∧
      scryfallSearch scryEnvEmptyData (Json.obj [])
        = scryfallSearch scryEnvNotFound (Json.obj [])) :=
  ⟨⟨rfl, rfl, rfl⟩,
    c10_missing_data_amended scryEnvNotFound (Json.obj [])
      (Json.obj [("object", Json.str "error"), ("code", Json.str "not_found"),
        ("status", Json.num 404)])
      [("q", "game:paper unique:prints")] rfl rfl rfl⟩
